import Mathlib

/-!
# Verification of the jvplot axis/tick-selection engine

This file gives a shallow embedding, in exact rational arithmetic, of the
numeric core of the jvplot plotting library (files `jvplot/scale.py`,
`jvplot/axis.py`, `jvplot/coords.py`, `jvplot/layout.py`, `jvplot/axes.py`,
`jvplot/canvas.py`), and proves or refutes the specified properties of that
core.

Modelling conventions:

* Python floats are modelled by `ℚ`; float literals such as the fudge factor
  `1e-6` are modelled by the exact rational they denote in the source text.
* `math.log10` is modelled by the idealized real logarithm `Real.logb 10`;
  the one definition that uses it (`smallest_scale_larger_than`) is therefore
  `noncomputable`, and concrete evaluations of it are recovered through a
  bridge lemma that turns the floor of the logarithm into rational
  inequalities.
* Python's `//` and `%` on integers (floor division, nonnegative remainder
  for a positive modulus) coincide with Lean's `Int` `/` and `%` for the
  positive modulus 4 used by the code.
* Python generators are modelled as functions producing the list of their
  first yields: a step-count argument bounds how many step sizes of the
  infinite `while True:` enumeration are included, and loops whose
  termination is not structural get a fuel argument, with results stated for
  every fuel value.
-/

/-! ## Scale (`jvplot/scale.py`, `Linear._scale_length`;
identical copies live in `jvplot/axis.py` and `jvplot/coords.py`) -/

/-- The lookup table `c = [1.0, 2.0, 2.5, 5.0]` indexed by `k % 4`. -/
def scaleC (r : ℤ) : ℚ :=
  if r = 0 then 1 else if r = 1 then 2 else if r = 2 then 5/2 else 5

/-- `Linear._scale_length(k)`: the scale length `c[k % 4] * 10**(k//4)`.
Python's `%`/`//` with modulus 4 agree with Lean's `Int` `%`/`/`. -/
def scale_length (k : ℤ) : ℚ := scaleC (k % 4) * 10 ^ (k / 4)

theorem scaleC_pos (r : ℤ) : 0 < scaleC r := by
  unfold scaleC
  split
  · norm_num
  · split
    · norm_num
    · split <;> norm_num

theorem scale_length_pos (k : ℤ) : 0 < scale_length k := by
  unfold scale_length
  have h := scaleC_pos (k % 4)
  positivity

theorem scale_length_lt_succ (k : ℤ) : scale_length k < scale_length (k + 1) := by
  have hp : (0:ℚ) < 10 ^ (k / 4) := by positivity
  have h4 : k % 4 = 0 ∨ k % 4 = 1 ∨ k % 4 = 2 ∨ k % 4 = 3 := by omega
  rcases h4 with h | h | h | h
  · have h1 : (k+1) % 4 = 1 := by omega
    have h2 : (k+1) / 4 = k / 4 := by omega
    simp only [scale_length, scaleC, h, h1, h2]
    norm_num
    linarith
  · have h1 : (k+1) % 4 = 2 := by omega
    have h2 : (k+1) / 4 = k / 4 := by omega
    simp only [scale_length, scaleC, h, h1, h2]
    norm_num
    linarith
  · have h1 : (k+1) % 4 = 3 := by omega
    have h2 : (k+1) / 4 = k / 4 := by omega
    simp only [scale_length, scaleC, h, h1, h2]
    norm_num
    linarith
  · have h1 : (k+1) % 4 = 0 := by omega
    have h2 : (k+1) / 4 = k / 4 + 1 := by omega
    simp only [scale_length, scaleC, h, h1, h2]
    rw [zpow_add₀ (by norm_num : (10:ℚ) ≠ 0)]
    norm_num
    linarith

theorem scale_length_strictMono : StrictMono scale_length :=
  strictMono_int_of_lt_succ scale_length_lt_succ

/-- C5: the nice-step function `step_length` (`scale.Linear._scale_length`,
also `axis._scale_length`), computed as `c[k % 4] * 10^(k div 4)` with
`c = [1.0, 2.0, 2.5, 5.0]` and floor division, is strictly increasing in `k`
(including negative `k`), and covers one decade every 4 steps:
`step_length(4) = 10 * step_length(0)`. -/
theorem scale_length_strict_increase_and_decade :
    (∀ k : ℤ, scale_length k < scale_length (k + 1)) ∧
    scale_length 4 = 10 * scale_length 0 := by
  refine ⟨scale_length_lt_succ, ?_⟩
  norm_num [scale_length, scaleC]

/-! ## `Linear._smallest_scale_larger_than` (`jvplot/scale.py`, also
`jvplot/axis.py`, `jvplot/coords.py`)

The source computes `k = floor(log10(q * x) * 4) + 1` with `q = 10**0.25/2`,
then increments `k` once if `scale_length(k) <= x`.  `math.log10` is modelled
by the ideal real logarithm. -/

/-- The floor-of-logarithm estimate `math.floor(math.log10(q * x) * 4)`
from `_smallest_scale_larger_than`, with `q = 10**0.25 / 2`. -/
noncomputable def logEstimate (x : ℚ) : ℤ :=
  ⌊Real.logb 10 ((10 : ℝ) ^ ((1:ℝ)/4) / 2 * (x : ℝ)) * 4⌋

/-- `Linear._smallest_scale_larger_than(x)`. -/
noncomputable def smallest_scale_larger_than (x : ℚ) : ℤ :=
  let k := logEstimate x + 1
  if scale_length k ≤ x then k + 1 else k

theorem q_rpow_pow4 : ((10 : ℝ) ^ ((1:ℝ)/4) / 2) ^ (4:ℕ) = 10 / 16 := by
  rw [div_pow, ← Real.rpow_natCast ((10:ℝ) ^ ((1:ℝ)/4)) 4,
    ← Real.rpow_mul (by norm_num : (0:ℝ) ≤ 10)]
  norm_num

theorem rpow_quarter_pow4 (n : ℤ) :
    ((10 : ℝ) ^ ((n : ℝ) / 4)) ^ (4:ℕ) = (10 : ℝ) ^ n := by
  rw [← Real.rpow_natCast ((10:ℝ) ^ ((n:ℝ)/4)) 4,
    ← Real.rpow_mul (by norm_num : (0:ℝ) ≤ 10)]
  have h : (n:ℝ)/4 * ((4:ℕ):ℝ) = ((n:ℤ):ℝ) := by push_cast; ring
  rw [h, Real.rpow_intCast]

/-- Bridge: the floor of the logarithmic estimate equals `n` exactly when
`x^4` lies in the rational window `[16·10^(n-1), 16·10^n)`. -/
theorem logEstimate_eq_iff (x : ℚ) (hx : 0 < x) (n : ℤ) :
    logEstimate x = n ↔
      16 * (10:ℚ) ^ (n - 1) ≤ x ^ 4 ∧ x ^ 4 < 16 * (10:ℚ) ^ n := by
  have hxR : (0:ℝ) < (x:ℝ) := by exact_mod_cast hx
  have hq : (0:ℝ) < (10 : ℝ) ^ ((1:ℝ)/4) / 2 := by positivity
  have hqx : (0:ℝ) < (10 : ℝ) ^ ((1:ℝ)/4) / 2 * (x:ℝ) := by positivity
  have hb : (1:ℝ) < 10 := by norm_num
  rw [logEstimate, Int.floor_eq_iff]
  constructor
  · rintro ⟨h1, h2⟩
    constructor
    · -- n ≤ 4·logb → 10^(n/4) ≤ q·x → 10^n ≤ (q·x)^4 = (10/16)·x^4
      have h1' : ((n:ℝ)/4) ≤ Real.logb 10 ((10 : ℝ) ^ ((1:ℝ)/4) / 2 * (x:ℝ)) := by
        linarith
      have h1'' := (Real.le_logb_iff_rpow_le hb hqx).mp h1'
      have h4 : ((10:ℝ) ^ ((n:ℝ)/4)) ^ (4:ℕ) ≤ ((10 : ℝ) ^ ((1:ℝ)/4) / 2 * (x:ℝ)) ^ (4:ℕ) := by
        apply pow_le_pow_left₀ (by positivity) h1''
      rw [rpow_quarter_pow4, mul_pow, q_rpow_pow4] at h4
      have hcast : ((16 * (10:ℚ) ^ (n - 1) : ℚ) : ℝ) ≤ (((x:ℚ) ^ 4 : ℚ) : ℝ) := by
        push_cast
        have hz : (10:ℝ) ^ (n - 1) = 10 ^ n / 10 := by
          rw [zpow_sub₀ (by norm_num : (10:ℝ) ≠ 0), zpow_one]
        rw [hz]
        linarith [h4]
      exact_mod_cast hcast
    · -- 4·logb < n+1 → q·x < 10^((n+1)/4) → (10/16)·x^4 < 10^(n+1)
      have h2' : Real.logb 10 ((10 : ℝ) ^ ((1:ℝ)/4) / 2 * (x:ℝ)) < ((n:ℝ)+1)/4 := by
        linarith
      have h2'' := (Real.logb_lt_iff_lt_rpow hb hqx).mp h2'
      have h4 : ((10 : ℝ) ^ ((1:ℝ)/4) / 2 * (x:ℝ)) ^ (4:ℕ) < ((10:ℝ) ^ (((n:ℝ)+1)/4)) ^ (4:ℕ) := by
        apply pow_lt_pow_left₀ h2'' (by positivity)
        norm_num
      have hcast4 : ((n:ℝ)+1) = (((n+1 : ℤ)) : ℝ) := by push_cast; ring
      rw [hcast4, rpow_quarter_pow4, mul_pow, q_rpow_pow4] at h4
      have hcast : (((x:ℚ) ^ 4 : ℚ) : ℝ) < ((16 * (10:ℚ) ^ n : ℚ) : ℝ) := by
        push_cast
        rw [zpow_add₀ (by norm_num : (10:ℝ) ≠ 0) n 1, zpow_one] at h4
        nlinarith [h4]
      exact_mod_cast hcast
  · rintro ⟨h1, h2⟩
    have h1R : ((16 * (10:ℚ) ^ (n - 1) : ℚ) : ℝ) ≤ (((x:ℚ) ^ 4 : ℚ) : ℝ) := by exact_mod_cast h1
    have h2R : (((x:ℚ) ^ 4 : ℚ) : ℝ) < ((16 * (10:ℚ) ^ n : ℚ) : ℝ) := by exact_mod_cast h2
    push_cast at h1R h2R
    constructor
    · have h1' : ((10:ℝ) ^ ((n:ℝ)/4)) ^ (4:ℕ) ≤ ((10 : ℝ) ^ ((1:ℝ)/4) / 2 * (x:ℝ)) ^ (4:ℕ) := by
        rw [rpow_quarter_pow4, mul_pow, q_rpow_pow4]
        rw [zpow_sub₀ (by norm_num : (10:ℝ) ≠ 0), zpow_one] at h1R
        nlinarith [h1R]
      have h1'' : (10:ℝ) ^ ((n:ℝ)/4) ≤ (10 : ℝ) ^ ((1:ℝ)/4) / 2 * (x:ℝ) := by
        apply (pow_le_pow_iff_left₀ (by positivity) (le_of_lt hqx) (by norm_num)).mp h1'
      have := (Real.le_logb_iff_rpow_le hb hqx).mpr h1''
      linarith
    · have h2' : ((10 : ℝ) ^ ((1:ℝ)/4) / 2 * (x:ℝ)) ^ (4:ℕ) < ((10:ℝ) ^ (((n:ℝ)+1)/4)) ^ (4:ℕ) := by
        have hcast4 : ((n:ℝ)+1) = (((n+1 : ℤ)) : ℝ) := by push_cast; ring
        rw [hcast4, rpow_quarter_pow4, mul_pow, q_rpow_pow4]
        rw [zpow_add₀ (by norm_num : (10:ℝ) ≠ 0) n 1, zpow_one]
        nlinarith [h2R]
      have h2'' : (10 : ℝ) ^ ((1:ℝ)/4) / 2 * (x:ℝ) < (10:ℝ) ^ (((n:ℝ)+1)/4) := by
        apply lt_of_pow_lt_pow_left₀ 4 (by positivity) h2'
      have := (Real.logb_lt_iff_lt_rpow hb hqx).mpr h2''
      linarith

/-- Fourth powers of scale lengths sit below the logarithmic estimate's
rational window: `scale_length(m)^4 ≤ 16·10^(m-1)`. -/
theorem scale_length_pow4_le (m : ℤ) :
    scale_length m ^ 4 ≤ 16 * (10:ℚ) ^ (m - 1) := by
  have hp : (0:ℚ) < 10 ^ (4 * (m / 4)) := by positivity
  have hsplit : (10:ℚ) ^ (m - 1) = 10 ^ (4 * (m / 4)) * 10 ^ (m % 4 - 1) := by
    rw [← zpow_add₀ (by norm_num : (10:ℚ) ≠ 0)]
    congr 1
    omega
  have hpow : scale_length m ^ 4 = scaleC (m % 4) ^ 4 * 10 ^ (4 * (m / 4)) := by
    rw [scale_length, mul_pow, ← zpow_natCast ((10:ℚ) ^ (m / 4)) 4, ← zpow_mul]
    congr 2
    omega
  rw [hpow, hsplit]
  have h4 : m % 4 = 0 ∨ m % 4 = 1 ∨ m % 4 = 2 ∨ m % 4 = 3 := by omega
  have hkey : scaleC (m % 4) ^ 4 ≤ 16 * (10:ℚ) ^ (m % 4 - 1) := by
    rcases h4 with h | h | h | h <;> rw [h] <;> simp [scaleC] <;> norm_num
  calc scaleC (m % 4) ^ 4 * 10 ^ (4 * (m / 4))
      ≤ (16 * (10:ℚ) ^ (m % 4 - 1)) * 10 ^ (4 * (m / 4)) := by
        exact mul_le_mul_of_nonneg_right hkey (le_of_lt hp)
    _ = 16 * (10 ^ (4 * (m / 4)) * 10 ^ (m % 4 - 1)) := by ring

/-- The upper end of the window sits below `scale_length(m+2)^4`:
`16·10^m ≤ scale_length(m+2)^4`. -/
theorem pow4_le_scale_length (m : ℤ) :
    16 * (10:ℚ) ^ m ≤ scale_length (m + 2) ^ 4 := by
  have hp : (0:ℚ) < 10 ^ (4 * ((m + 2) / 4)) := by positivity
  have hpow : scale_length (m + 2) ^ 4
      = scaleC ((m + 2) % 4) ^ 4 * 10 ^ (4 * ((m + 2) / 4)) := by
    rw [scale_length, mul_pow, ← zpow_natCast ((10:ℚ) ^ ((m + 2) / 4)) 4, ← zpow_mul]
    congr 2
    omega
  have hsplit : (10:ℚ) ^ m = 10 ^ (4 * ((m + 2) / 4)) * 10 ^ (m - 4 * ((m + 2) / 4)) := by
    rw [← zpow_add₀ (by norm_num : (10:ℚ) ≠ 0)]
    congr 1
    omega
  rw [hpow, hsplit]
  have h4 : m % 4 = 0 ∨ m % 4 = 1 ∨ m % 4 = 2 ∨ m % 4 = 3 := by omega
  have hkey : 16 * (10:ℚ) ^ (m - 4 * ((m + 2) / 4)) ≤ scaleC ((m + 2) % 4) ^ 4 := by
    rcases h4 with h | h | h | h
    · have h1 : (m + 2) % 4 = 2 := by omega
      have h2 : m - 4 * ((m + 2) / 4) = 0 := by omega
      rw [h1, h2]
      simp [scaleC]
      norm_num
    · have h1 : (m + 2) % 4 = 3 := by omega
      have h2 : m - 4 * ((m + 2) / 4) = 1 := by omega
      rw [h1, h2]
      simp [scaleC]
      norm_num
    · have h1 : (m + 2) % 4 = 0 := by omega
      have h2 : m - 4 * ((m + 2) / 4) = -2 := by omega
      rw [h1, h2]
      simp [scaleC]
      norm_num
    · have h1 : (m + 2) % 4 = 1 := by omega
      have h2 : m - 4 * ((m + 2) / 4) = -1 := by omega
      rw [h1, h2]
      simp [scaleC]
      norm_num
  calc 16 * ((10:ℚ) ^ (4 * ((m + 2) / 4)) * 10 ^ (m - 4 * ((m + 2) / 4)))
      = (16 * (10:ℚ) ^ (m - 4 * ((m + 2) / 4))) * 10 ^ (4 * ((m + 2) / 4)) := by ring
    _ ≤ scaleC ((m + 2) % 4) ^ 4 * 10 ^ (4 * ((m + 2) / 4)) := by
        exact mul_le_mul_of_nonneg_right hkey (le_of_lt hp)

theorem scale_length_le_of_pow4 {y : ℚ} {m : ℤ} (hy : 0 < y)
    (h : scale_length m ^ 4 ≤ y ^ 4) : scale_length m ≤ y :=
  (pow_le_pow_iff_left₀ (le_of_lt (scale_length_pos m)) (le_of_lt hy) (by norm_num)).mp h

theorem lt_scale_length_of_pow4 {y : ℚ} {m : ℤ} (h : y ^ 4 < scale_length m ^ 4) :
    y < scale_length m := by
  by_contra hc
  push_neg at hc
  have := pow_le_pow_left₀ (le_of_lt (scale_length_pos m)) hc 4
  exact absurd h (not_lt.mpr this)

/-- Core property of `_smallest_scale_larger_than` in ideal arithmetic:
the returned index `k` satisfies `scale_length (k-1) ≤ x < scale_length k`. -/
theorem smallest_scale_bracket (x : ℚ) (hx : 0 < x) :
    scale_length (smallest_scale_larger_than x - 1) ≤ x ∧
    x < scale_length (smallest_scale_larger_than x) := by
  have hx4 : 0 < x ^ 4 := by positivity
  obtain ⟨h1, h2⟩ := (logEstimate_eq_iff x hx (logEstimate x)).mp rfl
  set n := logEstimate x with hn
  -- scale_length n ≤ x
  have hlow : scale_length n ≤ x := by
    apply scale_length_le_of_pow4 hx
    exact le_trans (scale_length_pow4_le n) h1
  -- x < scale_length (n + 2)
  have hhigh : x < scale_length (n + 2) := by
    apply lt_scale_length_of_pow4
    exact lt_of_lt_of_le h2 (pow4_le_scale_length n)
  rw [smallest_scale_larger_than]
  simp only [← hn]
  by_cases hc : scale_length (n + 1) ≤ x
  · rw [if_pos hc]
    constructor
    · have : n + 1 + 1 - 1 = n + 1 := by ring
      rw [this]
      exact hc
    · have : n + 1 + 1 = n + 2 := by ring
      rw [this]
      exact hhigh
  · rw [if_neg hc]
    constructor
    · have : n + 1 - 1 = n := by ring
      rw [this]
      exact hlow
    · exact not_le.mp hc

/-- Evaluation helper: pin down `smallest_scale_larger_than x` from rational
bounds on `x^4`. -/
theorem smallest_scale_eval (x : ℚ) (hx : 0 < x) (n : ℤ)
    (h1 : 16 * (10:ℚ) ^ (n - 1) ≤ x ^ 4) (h2 : x ^ 4 < 16 * (10:ℚ) ^ n) :
    smallest_scale_larger_than x
      = (if scale_length (n + 1) ≤ x then n + 2 else n + 1) := by
  have he : logEstimate x = n := (logEstimate_eq_iff x hx n).mpr ⟨h1, h2⟩
  rw [smallest_scale_larger_than]
  simp only [he]
  by_cases hc : scale_length (n + 1) ≤ x
  · rw [if_pos hc, if_pos hc]
    ring
  · rw [if_neg hc, if_neg hc]

/-- C1 (amended): for every `x > 0`, the value `k` returned by
`_smallest_scale_larger_than` is the smallest integer with
`step_length(k) > x` (strictly): `step_length(k-1) ≤ x < step_length(k)`,
and every `j` with `step_length(j) > x` satisfies `k ≤ j`.  (The claim's
non-strict variant `step_length(k) ≥ x` with `step_length(k-1) < x` fails
exactly when `x` is itself a scale length; see the counterexample.) -/
theorem smallest_scale_larger_than_strict (x : ℚ) (hx : 0 < x) :
    scale_length (smallest_scale_larger_than x - 1) ≤ x ∧
    x < scale_length (smallest_scale_larger_than x) ∧
    ∀ j : ℤ, x < scale_length j → smallest_scale_larger_than x ≤ j := by
  obtain ⟨hle, hlt⟩ := smallest_scale_bracket x hx
  refine ⟨hle, hlt, ?_⟩
  intro j hj
  by_contra hc
  push_neg at hc
  have hj' : j ≤ smallest_scale_larger_than x - 1 := by omega
  have := scale_length_strictMono.monotone hj'
  linarith

/-- C1 witness: the hypotheses of the amended theorem hold at `x = 3`. -/
theorem smallest_scale_larger_than_strict_witness :
    (0:ℚ) < 3 ∧
    scale_length (smallest_scale_larger_than 3 - 1) ≤ 3 ∧
    (3:ℚ) < scale_length (smallest_scale_larger_than 3) :=
  ⟨by norm_num, (smallest_scale_larger_than_strict 3 (by norm_num)).1,
    (smallest_scale_larger_than_strict 3 (by norm_num)).2.1⟩

/-- C1 counterexample: at `x = 1` (a scale length) the code returns `k = 1`,
yet `step_length(0) = 1 ≥ 1`, so the returned index is not the smallest `k`
with `step_length(k) ≥ x`, and `step_length(k-1) < x` fails. -/
theorem smallest_scale_larger_than_counterexample :
    smallest_scale_larger_than 1 = 1 ∧
    (1:ℚ) ≤ scale_length (1 - 1) ∧
    ¬ scale_length (smallest_scale_larger_than 1 - 1) < 1 := by
  have he : smallest_scale_larger_than 1
      = (if scale_length ((-1) + 1) ≤ 1 then (-1) + 2 else (-1) + 1) := by
    apply smallest_scale_eval 1 (by norm_num) (-1)
    · norm_num
    · norm_num
  have h0 : scale_length 0 = 1 := by norm_num [scale_length, scaleC]
  have hval : smallest_scale_larger_than 1 = 1 := by
    rw [he]
    norm_num [h0]
  refine ⟨hval, ?_, ?_⟩
  · norm_num [h0]
  · rw [hval]
    norm_num [h0]

/-! ## `Linear.ticks_for_interval` (`jvplot/scale.py` lines 83–116)

The generator is modelled as the list of its yields: `trimLoop` is the inner
`for _ in range(3):` loop at one step size, `stepCandidates` applies it at
step `s`, and `ticksForIntervalFrom s n` concatenates the yields of the first
`n` iterations of the outer `while True:` loop starting at step `s`.
The labels produced alongside each tick list are string formatting only and
are omitted from the model. -/

/-- The module constant `_FUDGE = 1e-6`. -/
def _FUDGE : ℚ := 1/1000000

/-- The tick list `[i * dx for i in range(ia, ib+1)]`. -/
def tickList (dx : ℚ) (ia ib : ℤ) : List ℚ :=
  (List.range (ib + 1 - ia).toNat).map (fun j : ℕ => ((ia + (j:ℤ) : ℤ) : ℚ) * dx)

/-- One candidate `(lim, ticks)` as yielded by `ticks_for_interval`:
`lim = (min(ia*dx, a), max(ib*dx, b))`, `ticks = [i*dx for i in range(ia, ib+1)]`. -/
def intervalYield (a b dx : ℚ) (ia ib : ℤ) : (ℚ × ℚ) × List ℚ :=
  ((min ((ia:ℚ) * dx) a, max ((ib:ℚ) * dx) b), tickList dx ia ib)

/-- The `for _ in range(3):` loop body of `ticks_for_interval` at one step
size: yield (depending on `allow_outside` and `all_inside`), then remove the
tick which is furthest out and repeat. -/
def trimLoop (a b dx eps : ℚ) (allowOutside : Bool) :
    ℕ → ℤ → ℤ → List ((ℚ × ℚ) × List ℚ)
  | 0, _, _ => []
  | fuel + 1, ia, ib =>
    if ib + 1 - ia < 2 then []
    else
      let allInside : Bool := decide (a ≤ (ia:ℚ) * dx + eps) && decide ((ib:ℚ) * dx - eps ≤ b)
      let ys := if allowOutside || allInside then [intervalYield a b dx ia ib] else []
      if allInside then ys
      else
        ys ++ (if a - (ia:ℚ) * dx > (ib:ℚ) * dx - b
               then trimLoop a b dx eps allowOutside fuel (ia + 1) ib
               else trimLoop a b dx eps allowOutside fuel ia (ib - 1))

/-- The yields of `ticks_for_interval` at a single step size `s`. -/
def stepCandidates (a b : ℚ) (allowOutside : Bool) (s : ℤ) : List ((ℚ × ℚ) × List ℚ) :=
  let dx := scale_length s
  trimLoop a b dx (dx * _FUDGE) allowOutside 3 ⌊a / dx⌋ ⌈b / dx⌉

/-- The concatenated yields of the outer `while True:` loop of
`ticks_for_interval`, starting at step `s`, for `n` step sizes. -/
def ticksForIntervalFrom (a b : ℚ) (allowOutside : Bool) : ℤ → ℕ → List ((ℚ × ℚ) × List ℚ)
  | _, 0 => []
  | s, n + 1 => stepCandidates a b allowOutside s ++ ticksForIntervalFrom a b allowOutside (s - 1) n

/-- `Linear.ticks_for_interval(a, b, allow_outside)`: the generator starts at
`step = _smallest_scale_larger_than(b - a)`; `n` bounds how many step sizes
of the infinite enumeration are included. -/
noncomputable def ticks_for_interval (a b : ℚ) (allowOutside : Bool) (n : ℕ) :
    List ((ℚ × ℚ) × List ℚ) :=
  ticksForIntervalFrom a b allowOutside (smallest_scale_larger_than (b - a)) n
theorem tickList_len (dx : ℚ) (ia ib : ℤ) :
    (tickList dx ia ib).length = (ib + 1 - ia).toNat := by
  rw [tickList, List.length_map, List.length_range]

theorem tickList_cons (dx : ℚ) (ia ib : ℤ) (h : ia ≤ ib) :
    tickList dx ia ib = ((ia:ℚ) * dx) :: tickList dx (ia + 1) ib := by
  have hm : (ib + 1 - ia).toNat = (ib + 1 - (ia + 1)).toNat + 1 := by omega
  rw [tickList, hm, List.range_succ_eq_map, List.map_cons, List.map_map]
  congr 1
  · norm_num
  · rw [tickList]
    apply List.map_congr_left
    intro j hj
    simp only [Function.comp_apply]
    push_cast
    ring

theorem tickList_single (dx : ℚ) (ia : ℤ) :
    tickList dx ia ia = [(ia:ℚ) * dx] := by
  have h : (ia + 1 - ia).toNat = 1 := by omega
  rw [tickList, h, show List.range 1 = [0] from rfl]
  simp

theorem tickList_head? (dx : ℚ) {ia ib : ℤ} (h : ia ≤ ib) :
    (tickList dx ia ib).head? = some ((ia:ℚ) * dx) := by
  rw [tickList_cons dx ia ib h]
  rfl

theorem tickList_getLast?_aux (dx : ℚ) :
    ∀ m : ℕ, ∀ ia ib : ℤ, ib - ia = (m:ℤ) →
      (tickList dx ia ib).getLast? = some ((ib:ℚ) * dx) := by
  intro m
  induction m with
  | zero =>
    intro ia ib h
    have : ia = ib := by omega
    subst this
    rw [tickList_single]
    rfl
  | succ m ih =>
    intro ia ib h
    rw [tickList_cons dx ia ib (by omega)]
    rw [tickList_cons dx (ia + 1) ib (by omega), List.getLast?_cons_cons,
      ← tickList_cons dx (ia + 1) ib (by omega)]
    exact ih (ia + 1) ib (by omega)

theorem tickList_getLast? (dx : ℚ) {ia ib : ℤ} (h : ia ≤ ib) :
    (tickList dx ia ib).getLast? = some ((ib:ℚ) * dx) :=
  tickList_getLast?_aux dx (ib - ia).toNat ia ib (by omega)

theorem tickList_chain'_aux (dx : ℚ) :
    ∀ m : ℕ, ∀ ia ib : ℤ, ib - ia = (m:ℤ) →
      (tickList dx ia ib).Chain' (fun u v => v = u + dx) := by
  intro m
  induction m with
  | zero =>
    intro ia ib h
    have : ia = ib := by omega
    subst this
    rw [tickList_single]
    simp
  | succ m ih =>
    intro ia ib h
    rw [tickList_cons dx ia ib (by omega)]
    rw [tickList_cons dx (ia + 1) ib (by omega)]
    apply List.Chain'.cons
    · push_cast
      ring
    · rw [← tickList_cons dx (ia + 1) ib (by omega)]
      exact ih (ia + 1) ib (by omega)

theorem tickList_chain' (dx : ℚ) (ia ib : ℤ) :
    (tickList dx ia ib).Chain' (fun u v => v = u + dx) := by
  by_cases h : ia ≤ ib
  · exact tickList_chain'_aux dx (ib - ia).toNat ia ib (by omega)
  · have h0 : (ib + 1 - ia).toNat = 0 := by omega
    rw [tickList, h0]
    simp

theorem tickList_mem (dx : ℚ) (ia ib : ℤ) :
    ∀ t ∈ tickList dx ia ib, ∃ i : ℤ, ia ≤ i ∧ i ≤ ib ∧ t = (i:ℚ) * dx := by
  intro t ht
  rw [tickList] at ht
  obtain ⟨j, hj, hjt⟩ := List.mem_map.mp ht
  rw [List.mem_range] at hj
  exact ⟨ia + j, by omega, by omega, hjt.symm⟩

/-- Shape of every yield of the inner trim loop: indices `p, q` between the
initial `ia, ib`, at least two ticks, and — when `allow_outside` is false —
the fudge-tolerant containment conditions that gate the yield. -/
theorem trimLoop_mem (a b dx eps : ℚ) (ao : Bool) :
    ∀ fuel : ℕ, ∀ ia ib : ℤ, ∀ y ∈ trimLoop a b dx eps ao fuel ia ib,
      ∃ p q : ℤ, ia ≤ p ∧ q ≤ ib ∧ p < q ∧ y = intervalYield a b dx p q ∧
        (ao = false → a ≤ (p:ℚ) * dx + eps ∧ (q:ℚ) * dx - eps ≤ b) := by
  intro fuel
  induction fuel with
  | zero =>
    intro ia ib y hy
    simp [trimLoop] at hy
  | succ fuel ih =>
    intro ia ib y hy
    rw [trimLoop] at hy
    by_cases hcnt : ib + 1 - ia < 2
    · rw [if_pos hcnt] at hy
      simp at hy
    · rw [if_neg hcnt] at hy
      simp only [] at hy
      by_cases hin : (decide (a ≤ (ia:ℚ) * dx + eps) && decide ((ib:ℚ) * dx - eps ≤ b)) = true
      · rw [if_pos hin, hin] at hy
        have hprops : a ≤ (ia:ℚ) * dx + eps ∧ (ib:ℚ) * dx - eps ≤ b := by
          rw [Bool.and_eq_true, decide_eq_true_iff, decide_eq_true_iff] at hin
          exact hin
        simp at hy
        exact ⟨ia, ib, le_refl ia, le_refl ib, by omega, hy, fun _ => hprops⟩
      · rw [if_neg hin] at hy
        have hin' :
            (decide (a ≤ (ia:ℚ) * dx + eps) && decide ((ib:ℚ) * dx - eps ≤ b)) = false := by
          simpa using hin
        rw [List.mem_append] at hy
        rcases hy with hy | hy
        · -- y came from ys: possible only with allow_outside = true
          rw [hin'] at hy
          cases hao : ao with
          | true =>
            rw [hao] at hy
            simp at hy
            exact ⟨ia, ib, le_refl ia, le_refl ib, by omega, hy,
              fun hfalse => by simp at hfalse⟩
          | false =>
            rw [hao] at hy
            simp at hy
        · by_cases hside : a - (ia:ℚ) * dx > (ib:ℚ) * dx - b
          · rw [if_pos hside] at hy
            obtain ⟨p, q, hp, hq, hpq, hyv, hcond⟩ := ih (ia + 1) ib y hy
            exact ⟨p, q, by omega, hq, hpq, hyv, hcond⟩
          · rw [if_neg hside] at hy
            obtain ⟨p, q, hp, hq, hpq, hyv, hcond⟩ := ih ia (ib - 1) y hy
            exact ⟨p, q, hp, by omega, hpq, hyv, hcond⟩

/-- Every yield of the bounded enumeration comes from some single step size. -/
theorem ticksForIntervalFrom_mem (a b : ℚ) (ao : Bool) :
    ∀ n : ℕ, ∀ s : ℤ, ∀ y ∈ ticksForIntervalFrom a b ao s n,
      ∃ t : ℤ, y ∈ stepCandidates a b ao t := by
  intro n
  induction n with
  | zero =>
    intro s y hy
    simp [ticksForIntervalFrom] at hy
  | succ n ih =>
    intro s y hy
    rw [ticksForIntervalFrom, List.mem_append] at hy
    rcases hy with hy | hy
    · exact ⟨s, hy⟩
    · exact ih (s - 1) y hy

theorem floor_lt_ceil_div (a b dx : ℚ) (hab : a < b) (hdx : 0 < dx) :
    ⌊a / dx⌋ < ⌈b / dx⌉ := by
  have h1 : (⌊a / dx⌋ : ℚ) ≤ a / dx := Int.floor_le _
  have h2 : b / dx ≤ (⌈b / dx⌉ : ℚ) := Int.le_ceil _
  have h3 : a / dx < b / dx := by
    apply div_lt_div_of_pos_right hab hdx
  have : (⌊a / dx⌋ : ℚ) < (⌈b / dx⌉ : ℚ) := by linarith
  exact_mod_cast this

/-- The first yield at each step size (with `allow_outside` true) uses the
untrimmed indices `floor(a/dx)` and `ceil(b/dx)`. -/
theorem stepCandidates_head_true (a b : ℚ) (hab : a < b) (s : ℤ) :
    (stepCandidates a b true s).head? =
      some (intervalYield a b (scale_length s)
        ⌊a / scale_length s⌋ ⌈b / scale_length s⌉) := by
  have hdx := scale_length_pos s
  have hlt := floor_lt_ceil_div a b (scale_length s) hab hdx
  rw [stepCandidates]
  rw [trimLoop]
  rw [if_neg (by omega : ¬ (⌈b / scale_length s⌉ + 1 - ⌊a / scale_length s⌋ < 2))]
  simp only [Bool.true_or, if_true]
  by_cases hin : (decide (a ≤ (⌊a / scale_length s⌋:ℚ) * scale_length s + scale_length s * _FUDGE)
      && decide ((⌈b / scale_length s⌉:ℚ) * scale_length s - scale_length s * _FUDGE ≤ b)) = true
  · rw [if_pos hin]
    rfl
  · rw [if_neg hin]
    rfl

theorem scale_length_zero : scale_length 0 = 1 := by norm_num [scale_length, scaleC]

theorem scale_length_one : scale_length 1 = 2 := by norm_num [scale_length, scaleC]

theorem scale_length_two : scale_length 2 = 5/2 := by norm_num [scale_length, scaleC]

theorem smallest_at_one : smallest_scale_larger_than 1 = 1 := by
  have h := smallest_scale_eval 1 (by norm_num) (-1) (by norm_num) (by norm_num)
  rw [h]
  norm_num [scale_length_zero]

theorem smallest_at_two : smallest_scale_larger_than 2 = 2 := by
  have h := smallest_scale_eval 2 (by norm_num) 1 (by norm_num) (by norm_num)
  rw [h]
  norm_num [scale_length_two]

theorem smallest_at_three : smallest_scale_larger_than 3 = 3 := by
  have h := smallest_scale_eval 3 (by norm_num) 1 (by norm_num) (by norm_num)
  rw [h]
  norm_num [scale_length_two]

theorem smallest_at_near_two :
    smallest_scale_larger_than (19999999/10000000) = 1 := by
  have h := smallest_scale_eval (19999999/10000000) (by norm_num) 0
    (by norm_num) (by norm_num)
  rw [h]
  norm_num [scale_length_one]

/-- C2 (amended): for `a < b`, every candidate yielded by the covering
generator (`scale.Linear.ticks` with `allow_outside=True`, i.e.
`ticks_for_interval`) has an axis range `lim` with `lim[0] ≤ a < b ≤ lim[1]`,
and the *first* candidate at each step size additionally has
`ticks[0] ≤ a ≤ b ≤ ticks[-1]`.  (The claim's statement that *every* yielded
tick set covers `[a, b]` fails for the trimmed candidates; see the
counterexample.) -/
theorem ticks_for_interval_coverage (a b : ℚ) (hab : a < b) :
    (∀ n : ℕ, ∀ y ∈ ticks_for_interval a b true n, y.1.1 ≤ a ∧ b ≤ y.1.2) ∧
    (∀ s : ℤ, ∀ y, (stepCandidates a b true s).head? = some y →
      ∃ t0 tl, y.2.head? = some t0 ∧ y.2.getLast? = some tl ∧ t0 ≤ a ∧ b ≤ tl) := by
  constructor
  · intro n y hy
    rw [ticks_for_interval] at hy
    obtain ⟨t, ht⟩ := ticksForIntervalFrom_mem a b true n _ y hy
    rw [stepCandidates] at ht
    obtain ⟨p, q, _, _, _, hyv, _⟩ := trimLoop_mem _ _ _ _ _ _ _ _ y ht
    rw [hyv, intervalYield]
    exact ⟨min_le_right _ _, le_max_right _ _⟩
  · intro s y hy
    rw [stepCandidates_head_true a b hab s] at hy
    have hy' : y = intervalYield a b (scale_length s)
        ⌊a / scale_length s⌋ ⌈b / scale_length s⌉ := by
      injection hy with h
      exact h.symm
    have hdx := scale_length_pos s
    have hle : ⌊a / scale_length s⌋ ≤ ⌈b / scale_length s⌉ :=
      le_of_lt (floor_lt_ceil_div a b (scale_length s) hab hdx)
    rw [hy', intervalYield]
    refine ⟨(⌊a / scale_length s⌋ : ℚ) * scale_length s,
      (⌈b / scale_length s⌉ : ℚ) * scale_length s,
      tickList_head? _ hle, tickList_getLast? _ hle, ?_, ?_⟩
    · have h1 : (⌊a / scale_length s⌋ : ℚ) ≤ a / scale_length s := Int.floor_le _
      calc (⌊a / scale_length s⌋ : ℚ) * scale_length s
          ≤ (a / scale_length s) * scale_length s :=
            mul_le_mul_of_nonneg_right h1 (le_of_lt hdx)
        _ = a := div_mul_cancel₀ a (ne_of_gt hdx)
    · have h2 : b / scale_length s ≤ (⌈b / scale_length s⌉ : ℚ) := Int.le_ceil _
      calc b = (b / scale_length s) * scale_length s :=
            (div_mul_cancel₀ b (ne_of_gt hdx)).symm
        _ ≤ (⌈b / scale_length s⌉ : ℚ) * scale_length s :=
            mul_le_mul_of_nonneg_right h2 (le_of_lt hdx)
/-- Concrete run of one step of the covering generator for `(0, 1)` at
step 1 (`dx = 2`). -/
theorem stepCandidates_01_s1 :
    stepCandidates 0 1 true 1 = [(((0:ℚ), (2:ℚ)), tickList 2 0 1)] := by
  have hceil : ⌈(1:ℚ)/2⌉ = 1 := by rw [Int.ceil_eq_iff]; norm_num
  have hfloor : ⌊(0:ℚ)/2⌋ = 0 := by rw [Int.floor_eq_iff]; norm_num
  have hdx : scale_length 1 = 2 := scale_length_one
  norm_num [stepCandidates, trimLoop, intervalYield, _FUDGE, hdx, hceil, hfloor]

theorem tickList_2_0_1 : tickList 2 0 1 = [(0:ℚ), 2] := by
  rw [tickList, show ((1:ℤ) + 1 - 0).toNat = 2 from rfl]
  simp [List.range_succ]

/-- C2 witness: the amended theorem applied at `(a, b) = (0, 1)` and the
concrete candidate yielded there. -/
theorem ticks_for_interval_coverage_witness :
    (0:ℚ) < 1 ∧
    (((0:ℚ), (2:ℚ)), tickList 2 0 1) ∈ ticks_for_interval 0 1 true 1 ∧
    ((0:ℚ) ≤ 0 ∧ (1:ℚ) ≤ 2) := by
  have hmem : (((0:ℚ), (2:ℚ)), tickList 2 0 1) ∈ ticks_for_interval 0 1 true 1 := by
    have h : ticks_for_interval 0 1 true 1 = ticksForIntervalFrom 0 1 true 1 1 := by
      rw [ticks_for_interval]
      norm_num [smallest_at_one]
    rw [h, ticksForIntervalFrom, stepCandidates_01_s1]
    simp
  exact ⟨by norm_num, hmem,
    (ticks_for_interval_coverage 0 1 (by norm_num)).1 1 _ hmem⟩

theorem stepCandidates_03_s3 :
    stepCandidates 0 3 true 3 = [(((0:ℚ), (5:ℚ)), tickList 5 0 1)] := by
  have hceil : ⌈(3:ℚ)/5⌉ = 1 := by rw [Int.ceil_eq_iff]; norm_num
  have hfloor : ⌊(0:ℚ)/5⌋ = 0 := by rw [Int.floor_eq_iff]; norm_num
  have hdx : scale_length 3 = 5 := by norm_num [scale_length, scaleC]
  norm_num [stepCandidates, trimLoop, intervalYield, _FUDGE, hdx, hceil, hfloor]

theorem stepCandidates_03_s2 :
    stepCandidates 0 3 true 2 =
      [(((0:ℚ), (5:ℚ)), tickList (5/2) 0 2), (((0:ℚ), (3:ℚ)), tickList (5/2) 0 1)] := by
  have hceil : ⌈(6:ℚ)/5⌉ = 2 := by rw [Int.ceil_eq_iff]; norm_num
  have hfloor : ⌊(0:ℚ)/(5/2)⌋ = 0 := by rw [Int.floor_eq_iff]; norm_num
  have hdx : scale_length 2 = 5/2 := scale_length_two
  norm_num [stepCandidates, trimLoop, intervalYield, _FUDGE, hdx, hceil, hfloor]

theorem tickList_52_0_1 : tickList (5/2) 0 1 = [(0:ℚ), 5/2] := by
  rw [tickList, show ((1:ℤ) + 1 - 0).toNat = 2 from rfl]
  simp [List.range_succ]

/-- C2 counterexample: for `(a, b) = (0, 3)` the covering generator also
yields the trimmed candidate `((0, 3), [0, 5/2])`, whose last tick `5/2` is
strictly below `b = 3`, refuting `b ≤ ticks[-1]` for every yielded tick set. -/
theorem ticks_for_interval_coverage_counterexample :
    (((0:ℚ), (3:ℚ)), tickList (5/2) 0 1) ∈ ticks_for_interval 0 3 true 2 ∧
    tickList (5/2) 0 1 = [(0:ℚ), 5/2] ∧
    ([(0:ℚ), 5/2].getLast? = some (5/2)) ∧ (5:ℚ)/2 < 3 := by
  refine ⟨?_, tickList_52_0_1, rfl, by norm_num⟩
  have h : ticks_for_interval 0 3 true 2 = ticksForIntervalFrom 0 3 true 3 2 := by
    rw [ticks_for_interval]
    norm_num [smallest_at_three]
  rw [h, ticksForIntervalFrom, ticksForIntervalFrom, stepCandidates_03_s3]
  norm_num [show (3:ℤ) - 1 = 2 from rfl, stepCandidates_03_s2]

/-- C3 (amended): for `a < b`, every candidate yielded by the inside-only
generator (`scale.Linear.ticks` with `allow_outside=False`) consists of at
least 2 strictly increasing ticks, all integer multiples of a single step
size `dx`, contained in `[a, b]` up to the fudge tolerance `dx * 1e-6`:
`a - dx*1e-6 ≤ ticks[0]` and `ticks[-1] ≤ b + dx*1e-6`.  (The claim's exact
containment `a ≤ ticks[0]` and its tick-count cap `n ≤ 20` both fail: the
code has no tick-count cap at all and keeps generating finer step sizes; see
the counterexample.) -/
theorem ticks_for_interval_inside (a b : ℚ) (hab : a < b) :
    ∀ n : ℕ, ∀ y ∈ ticks_for_interval a b false n,
      ∃ dx : ℚ, 0 < dx ∧
        2 ≤ y.2.length ∧
        y.2.Chain' (fun u v => v = u + dx) ∧
        (∀ t ∈ y.2, ∃ i : ℤ, t = (i:ℚ) * dx) ∧
        (∃ t0, y.2.head? = some t0 ∧ a - dx * _FUDGE ≤ t0) ∧
        (∃ tl, y.2.getLast? = some tl ∧ tl ≤ b + dx * _FUDGE) := by
  intro n y hy
  rw [ticks_for_interval] at hy
  obtain ⟨t, ht⟩ := ticksForIntervalFrom_mem a b false n _ y hy
  rw [stepCandidates] at ht
  obtain ⟨p, q, _, _, hpq, hyv, hcond⟩ := trimLoop_mem _ _ _ _ _ _ _ _ y ht
  obtain ⟨hc1, hc2⟩ := hcond rfl
  have hdx := scale_length_pos t
  refine ⟨scale_length t, hdx, ?_, ?_, ?_, ?_, ?_⟩
  · rw [hyv]
    show 2 ≤ (tickList (scale_length t) p q).length
    rw [tickList_len]
    omega
  · rw [hyv]
    exact tickList_chain' _ p q
  · rw [hyv]
    intro u hu
    obtain ⟨i, _, _, hiu⟩ := tickList_mem _ p q u hu
    exact ⟨i, hiu⟩
  · rw [hyv]
    refine ⟨(p:ℚ) * scale_length t, tickList_head? _ (le_of_lt hpq), ?_⟩
    linarith
  · rw [hyv]
    refine ⟨(q:ℚ) * scale_length t, tickList_getLast? _ (le_of_lt hpq), ?_⟩
    linarith

theorem stepCandidates_01_false_s1 : stepCandidates 0 1 false 1 = [] := by
  have hceil : ⌈(1:ℚ)/2⌉ = 1 := by rw [Int.ceil_eq_iff]; norm_num
  have hfloor : ⌊(0:ℚ)/2⌋ = 0 := by rw [Int.floor_eq_iff]; norm_num
  norm_num [stepCandidates, trimLoop, intervalYield, _FUDGE, scale_length_one, hceil, hfloor]

theorem stepCandidates_01_false_s0 :
    stepCandidates 0 1 false 0 = [(((0:ℚ), (1:ℚ)), tickList 1 0 1)] := by
  norm_num [stepCandidates, trimLoop, intervalYield, _FUDGE, scale_length_zero]

/-- C3 witness: the amended theorem applied at `(a, b) = (0, 1)` and the
candidate yielded there at step size 1. -/
theorem ticks_for_interval_inside_witness :
    (0:ℚ) < 1 ∧
    (((0:ℚ), (1:ℚ)), tickList 1 0 1) ∈ ticks_for_interval 0 1 false 2 ∧
    (∃ dx : ℚ, 0 < dx ∧
      2 ≤ (tickList 1 0 1).length ∧
      (tickList 1 0 1).Chain' (fun u v => v = u + dx) ∧
      (∀ t ∈ tickList 1 0 1, ∃ i : ℤ, t = (i:ℚ) * dx) ∧
      (∃ t0, (tickList 1 0 1).head? = some t0 ∧ 0 - dx * _FUDGE ≤ t0) ∧
      (∃ tl, (tickList 1 0 1).getLast? = some tl ∧ tl ≤ 1 + dx * _FUDGE)) := by
  have hmem : (((0:ℚ), (1:ℚ)), tickList 1 0 1) ∈ ticks_for_interval 0 1 false 2 := by
    have h : ticks_for_interval 0 1 false 2 = ticksForIntervalFrom 0 1 false 1 2 := by
      rw [ticks_for_interval]
      norm_num [smallest_at_one]
    rw [h, ticksForIntervalFrom, stepCandidates_01_false_s1]
    norm_num [show (1:ℤ) - 1 = 0 from rfl, ticksForIntervalFrom, stepCandidates_01_false_s0]
  exact ⟨by norm_num, hmem,
    ticks_for_interval_inside 0 1 (by norm_num) 2 _ hmem⟩

theorem scale_length_neg1 : scale_length (-1) = 1/2 := by norm_num [scale_length, scaleC]

theorem scale_length_neg2 : scale_length (-2) = 1/4 := by norm_num [scale_length, scaleC]

theorem scale_length_neg3 : scale_length (-3) = 1/5 := by norm_num [scale_length, scaleC]

theorem scale_length_neg4 : scale_length (-4) = 1/10 := by norm_num [scale_length, scaleC]

theorem stepCandidates_eps_s1 :
    stepCandidates (10000001/10000000) 3 false 1 = [] := by
  have hceil : ⌈(3:ℚ)/2⌉ = 2 := by rw [Int.ceil_eq_iff]; norm_num
  have hfloor : ⌊(10000001:ℚ)/10000000/2⌋ = 0 := by rw [Int.floor_eq_iff]; norm_num
  norm_num [stepCandidates, trimLoop, intervalYield, _FUDGE, scale_length_one, hceil, hfloor]

theorem stepCandidates_eps_s0 :
    stepCandidates (10000001/10000000) 3 false 0 = [(((1:ℚ), (3:ℚ)), tickList 1 1 3)] := by
  have hfloor : ⌊(10000001:ℚ)/10000000/1⌋ = 1 := by rw [Int.floor_eq_iff]; norm_num
  norm_num [stepCandidates, trimLoop, intervalYield, _FUDGE, scale_length_zero, hfloor]

theorem stepCandidates_02_s2 : stepCandidates 0 2 false 2 = [] := by
  have hceil : ⌈(4:ℚ)/5⌉ = 1 := by rw [Int.ceil_eq_iff]; norm_num
  have hfloor : ⌊(0:ℚ)/(5/2)⌋ = 0 := by rw [Int.floor_eq_iff]; norm_num
  norm_num [stepCandidates, trimLoop, intervalYield, _FUDGE, scale_length_two, hceil, hfloor]

theorem stepCandidates_02_s1 :
    stepCandidates 0 2 false 1 = [(((0:ℚ), (2:ℚ)), tickList 2 0 1)] := by
  have hfloor : ⌊(0:ℚ)/2⌋ = 0 := by rw [Int.floor_eq_iff]; norm_num
  norm_num [stepCandidates, trimLoop, intervalYield, _FUDGE, scale_length_one, hfloor]

theorem stepCandidates_02_s0 :
    stepCandidates 0 2 false 0 = [(((0:ℚ), (2:ℚ)), tickList 1 0 2)] := by
  norm_num [stepCandidates, trimLoop, intervalYield, _FUDGE, scale_length_zero]

theorem stepCandidates_02_sm1 :
    stepCandidates 0 2 false (-1) = [(((0:ℚ), (2:ℚ)), tickList (1/2) 0 4)] := by
  have hfloor : ⌊(0:ℚ)/(1/2)⌋ = 0 := by rw [Int.floor_eq_iff]; norm_num
  norm_num [stepCandidates, trimLoop, intervalYield, _FUDGE, scale_length_neg1, hfloor]

theorem stepCandidates_02_sm2 :
    stepCandidates 0 2 false (-2) = [(((0:ℚ), (2:ℚ)), tickList (1/4) 0 8)] := by
  have hfloor : ⌊(0:ℚ)/(1/4)⌋ = 0 := by rw [Int.floor_eq_iff]; norm_num
  norm_num [stepCandidates, trimLoop, intervalYield, _FUDGE, scale_length_neg2, hfloor]

theorem stepCandidates_02_sm3 :
    stepCandidates 0 2 false (-3) = [(((0:ℚ), (2:ℚ)), tickList (1/5) 0 10)] := by
  have hfloor : ⌊(0:ℚ)/(1/5)⌋ = 0 := by rw [Int.floor_eq_iff]; norm_num
  norm_num [stepCandidates, trimLoop, intervalYield, _FUDGE, scale_length_neg3, hfloor]

theorem stepCandidates_02_sm4 :
    stepCandidates 0 2 false (-4) = [(((0:ℚ), (2:ℚ)), tickList (1/10) 0 20)] := by
  have hfloor : ⌊(0:ℚ)/(1/10)⌋ = 0 := by rw [Int.floor_eq_iff]; norm_num
  norm_num [stepCandidates, trimLoop, intervalYield, _FUDGE, scale_length_neg4, hfloor]

/-- C3 counterexample, two parts.  (1) With `a = 1.0000001` and `b = 3` the
inside-only generator yields the tick set `[1, 2, 3]` whose first tick `1`
is strictly below `a` (exact containment holds only up to the fudge
tolerance).  (2) With `a = 0` and `b = 2` it yields a candidate with 21
ticks, violating the claimed cap `len(ticks) ≤ 20`, and generation did not
stop at the cap. -/
theorem ticks_for_interval_inside_counterexample :
    ((((1:ℚ), (3:ℚ)), tickList 1 1 3) ∈
        ticks_for_interval (10000001/10000000) 3 false 2 ∧
      (tickList 1 1 3).head? = some 1 ∧ (1:ℚ) < 10000001/10000000) ∧
    ((((0:ℚ), (2:ℚ)), tickList (1/10) 0 20) ∈ ticks_for_interval 0 2 false 7 ∧
      (tickList (1/10) 0 20).length = 21 ∧ 20 < (tickList (1/10) 0 20).length) := by
  constructor
  · refine ⟨?_, ?_, by norm_num⟩
    · have h : ticks_for_interval (10000001/10000000) 3 false 2
          = ticksForIntervalFrom (10000001/10000000) 3 false 1 2 := by
        rw [ticks_for_interval]
        norm_num [smallest_at_near_two]
      rw [h, ticksForIntervalFrom, stepCandidates_eps_s1]
      norm_num [show (1:ℤ) - 1 = 0 from rfl, ticksForIntervalFrom, stepCandidates_eps_s0]
    · have h1 := tickList_head? 1 (by norm_num : (1:ℤ) ≤ 3)
      rw [h1]
      norm_num
  · refine ⟨?_, ?_, ?_⟩
    · have h : ticks_for_interval 0 2 false 7 = ticksForIntervalFrom 0 2 false 2 7 := by
        rw [ticks_for_interval]
        norm_num [smallest_at_two]
      rw [h, ticksForIntervalFrom, stepCandidates_02_s2]
      rw [show (2:ℤ) - 1 = 1 from rfl, ticksForIntervalFrom, stepCandidates_02_s1]
      rw [show (1:ℤ) - 1 = 0 from rfl, ticksForIntervalFrom, stepCandidates_02_s0]
      rw [show (0:ℤ) - 1 = -1 from rfl, ticksForIntervalFrom, stepCandidates_02_sm1]
      rw [show (-1:ℤ) - 1 = -2 from rfl, ticksForIntervalFrom, stepCandidates_02_sm2]
      rw [show (-2:ℤ) - 1 = -3 from rfl, ticksForIntervalFrom, stepCandidates_02_sm3]
      rw [show (-3:ℤ) - 1 = -4 from rfl, ticksForIntervalFrom, stepCandidates_02_sm4]
      simp
    · rw [tickList_len]
      rfl
    · rw [tickList_len]
      norm_num

/-! ## `Linear.ticks_for_width` (`jvplot/scale.py` lines 31–81)

The two inner `while` loops (squeezing in more ticks, and shrinking an
over-wide tick interval) are modelled with fuel; `none` means the fuel ran
out before the loop exited, and all results are proved for every fuel value.
The final `lim` adjustment distributes the leftover `gap = width - (right -
left)` according to the closed-form minimizer `p`, clamped to `[0, 1]`. -/

/-- The `while (ib - ia + 1) * dx <= width:` squeezing loop. -/
def widenLoop (a b dx width : ℚ) : ℕ → ℤ → ℤ → Option (ℤ × ℤ)
  | 0, _, _ => none
  | fuel + 1, ia, ib =>
    if ((ib - ia + 1 : ℤ) : ℚ) * dx ≤ width then
      if a - (ia:ℚ) * dx ≤ (ib:ℚ) * dx - b
      then widenLoop a b dx width fuel (ia - 1) ib
      else widenLoop a b dx width fuel ia (ib + 1)
    else some (ia, ib)

/-- The `while ((ib - ia) * dx > width or ...):` shrinking loop. -/
def shrinkLoop (a b dx width eps : ℚ) : ℕ → ℤ → ℤ → Option (ℤ × ℤ)
  | 0, _, _ => none
  | fuel + 1, ia, ib =>
    if ((ib - ia : ℤ) : ℚ) * dx > width ∨
        (b - a ≤ width + eps ∧
          ((ib:ℚ) * dx - a > width + eps ∨ b - (ia:ℚ) * dx > width + eps)) then
      if a - (ia:ℚ) * dx > (ib:ℚ) * dx - b
      then shrinkLoop a b dx width eps fuel (ia + 1) ib
      else shrinkLoop a b dx width eps fuel ia (ib - 1)
    else some (ia, ib)

/-- The `lim` computed from the final `ia, ib`: the leftover gap is
distributed by the closed-form minimizer `p`, clamped to `[0, 1]`. -/
def widthLim (a b dx width eps : ℚ) (ia ib : ℤ) : ℚ × ℚ :=
  let left := (ia:ℚ) * dx
  let right := (ib:ℚ) * dx
  let gap := width - right + left
  let p := if gap > eps then ((left + right - a - b) / gap + 1) / 2 else 0
  if p ≤ 0 then (left, left + width)
  else if 1 ≤ p then (right - width, right)
  else (left - p * gap, right + (1 - p) * gap)

/-- One iteration of the outer `while True:` loop of `ticks_for_width` at
step `s`: `none` when the `ib - ia + 1 < 2` guard skips the yield (or fuel
ran out inside a loop). -/
def stepCandidateW (a b width : ℚ) (s : ℤ) (fuel : ℕ) :
    Option ((ℚ × ℚ) × List ℚ) :=
  let dx := scale_length s
  let eps := dx * _FUDGE
  match widenLoop a b dx width fuel ⌊a / dx⌋ ⌈b / dx⌉ with
  | none => none
  | some (ia₀, ib₀) =>
    match shrinkLoop a b dx width eps fuel ia₀ ib₀ with
    | none => none
    | some (ia, ib) =>
      if ib - ia + 1 < 2 then none
      else some (widthLim a b dx width eps ia ib, tickList dx ia ib)

/-- The yields of the outer loop of `ticks_for_width` over `n` step sizes,
starting below `s` (the loop decrements `step` before using it). -/
def ticksForWidthFrom (a b width : ℚ) : ℤ → ℕ → ℕ → List ((ℚ × ℚ) × List ℚ)
  | _, 0, _ => []
  | s, n + 1, fuel =>
    (stepCandidateW a b width (s - 1) fuel).toList
      ++ ticksForWidthFrom a b width (s - 1) n fuel

/-- `Linear.ticks_for_width(a, b, width)`: starts at
`step = _smallest_scale_larger_than(width)` and decrements before each use. -/
noncomputable def ticks_for_width (a b width : ℚ) (n fuel : ℕ) :
    List ((ℚ × ℚ) × List ℚ) :=
  ticksForWidthFrom a b width (smallest_scale_larger_than width) n fuel

/-- The shrinking loop only exits with its condition false. -/
theorem shrinkLoop_exit (a b dx width eps : ℚ) :
    ∀ fuel : ℕ, ∀ ia ib ja jb : ℤ,
      shrinkLoop a b dx width eps fuel ia ib = some (ja, jb) →
      ((jb - ja : ℤ) : ℚ) * dx ≤ width ∧
        (b - a ≤ width + eps →
          (jb:ℚ) * dx - a ≤ width + eps ∧ b - (ja:ℚ) * dx ≤ width + eps) := by
  intro fuel
  induction fuel with
  | zero =>
    intro ia ib ja jb h
    simp [shrinkLoop] at h
  | succ fuel ih =>
    intro ia ib ja jb h
    rw [shrinkLoop] at h
    by_cases hc : ((ib - ia : ℤ) : ℚ) * dx > width ∨
        (b - a ≤ width + eps ∧
          ((ib:ℚ) * dx - a > width + eps ∨ b - (ia:ℚ) * dx > width + eps))
    · rw [if_pos hc] at h
      by_cases hside : a - (ia:ℚ) * dx > (ib:ℚ) * dx - b
      · rw [if_pos hside] at h
        exact ih (ia + 1) ib ja jb h
      · rw [if_neg hside] at h
        exact ih ia (ib - 1) ja jb h
    · rw [if_neg hc] at h
      injection h with h'
      injection h' with h1 h2
      subst h1
      subst h2
      push_neg at hc
      exact ⟨hc.1, fun hba => ⟨(hc.2 hba).1, (hc.2 hba).2⟩⟩

/-- The adjusted axis range always spans exactly `width`. -/
theorem widthLim_span (a b dx width eps : ℚ) (ia ib : ℤ) :
    (widthLim a b dx width eps ia ib).2 - (widthLim a b dx width eps ia ib).1 = width := by
  rw [widthLim]
  by_cases hgap : width - (ib:ℚ) * dx + (ia:ℚ) * dx > eps
  · rw [if_pos hgap]
    by_cases hp0 : (((ia:ℚ) * dx + (ib:ℚ) * dx - a - b) / (width - (ib:ℚ) * dx + (ia:ℚ) * dx) + 1) / 2 ≤ 0
    · rw [if_pos hp0]
      ring
    · rw [if_neg hp0]
      by_cases hp1 : 1 ≤ (((ia:ℚ) * dx + (ib:ℚ) * dx - a - b) / (width - (ib:ℚ) * dx + (ia:ℚ) * dx) + 1) / 2
      · rw [if_pos hp1]
        ring
      · rw [if_neg hp1]
        ring
  · rw [if_neg hgap]
    rw [if_pos (le_refl (0:ℚ))]
    ring

/-- Coverage of the adjusted range, up to twice the fudge tolerance, given
the shrink loop's exit conditions. -/
theorem widthLim_cover (a b dx width eps : ℚ) (heps : 0 < eps)
    (hba : b - a ≤ width) (ia ib : ℤ)
    (hspan : ((ib - ia : ℤ) : ℚ) * dx ≤ width)
    (h1 : (ib:ℚ) * dx - a ≤ width + eps)
    (h2 : b - (ia:ℚ) * dx ≤ width + eps) :
    (widthLim a b dx width eps ia ib).1 ≤ a + 2 * eps ∧
    b - 2 * eps ≤ (widthLim a b dx width eps ia ib).2 := by
  have hspan' : (ib:ℚ) * dx - (ia:ℚ) * dx ≤ width := by
    have : ((ib - ia : ℤ) : ℚ) = (ib:ℚ) - (ia:ℚ) := by push_cast; ring
    rw [this] at hspan
    linarith
  rw [widthLim]
  by_cases hgap : width - (ib:ℚ) * dx + (ia:ℚ) * dx > eps
  · rw [if_pos hgap]
    have hgap0 : (0:ℚ) < width - (ib:ℚ) * dx + (ia:ℚ) * dx := lt_trans heps hgap
    by_cases hp0 : (((ia:ℚ) * dx + (ib:ℚ) * dx - a - b) / (width - (ib:ℚ) * dx + (ia:ℚ) * dx) + 1) / 2 ≤ 0
    · rw [if_pos hp0]
      constructor
      · -- left ≤ a: from p ≤ 0
        have hdiv : ((ia:ℚ) * dx + (ib:ℚ) * dx - a - b) / (width - (ib:ℚ) * dx + (ia:ℚ) * dx) ≤ -1 := by
          linarith
        have := (div_le_iff₀ hgap0).mp hdiv
        simp only []
        nlinarith
      · simp only []
        linarith
    · rw [if_neg hp0]
      by_cases hp1 : 1 ≤ (((ia:ℚ) * dx + (ib:ℚ) * dx - a - b) / (width - (ib:ℚ) * dx + (ia:ℚ) * dx) + 1) / 2
      · rw [if_pos hp1]
        have hdiv : 1 ≤ ((ia:ℚ) * dx + (ib:ℚ) * dx - a - b) / (width - (ib:ℚ) * dx + (ia:ℚ) * dx) := by
          linarith
        have := (le_div_iff₀ hgap0).mp hdiv
        constructor
        · simp only []
          linarith
        · simp only []
          nlinarith
      · rw [if_neg hp1]
        -- interior case: exact coverage
        push_neg at hp0 hp1
        have hgapne : width - (ib:ℚ) * dx + (ia:ℚ) * dx ≠ 0 := ne_of_gt hgap0
        have hpg : (((ia:ℚ) * dx + (ib:ℚ) * dx - a - b) / (width - (ib:ℚ) * dx + (ia:ℚ) * dx) + 1) / 2
              * (width - (ib:ℚ) * dx + (ia:ℚ) * dx)
            = ((ia:ℚ) * dx + (ib:ℚ) * dx - a - b + (width - (ib:ℚ) * dx + (ia:ℚ) * dx)) / 2 := by
          field_simp
          ring
        constructor
        · simp only []
          rw [hpg]
          linarith
        · simp only []
          have hq : (1 - (((ia:ℚ) * dx + (ib:ℚ) * dx - a - b) / (width - (ib:ℚ) * dx + (ia:ℚ) * dx) + 1) / 2)
                * (width - (ib:ℚ) * dx + (ia:ℚ) * dx)
              = (width - (ib:ℚ) * dx + (ia:ℚ) * dx)
                - ((ia:ℚ) * dx + (ib:ℚ) * dx - a - b + (width - (ib:ℚ) * dx + (ia:ℚ) * dx)) / 2 := by
            field_simp
            ring
          rw [hq]
          linarith
  · rw [if_neg hgap]
    rw [if_pos (le_refl (0:ℚ))]
    push_neg at hgap
    constructor
    · simp only []
      linarith
    · simp only []
      linarith
/-- Inversion for a successful step of `ticks_for_width`. -/
theorem stepCandidateW_some (a b width : ℚ) (s : ℤ) (fuel : ℕ)
    (y : (ℚ × ℚ) × List ℚ) (h : stepCandidateW a b width s fuel = some y) :
    ∃ ja jb ia ib : ℤ,
      widenLoop a b (scale_length s) width fuel ⌊a / scale_length s⌋ ⌈b / scale_length s⌉
        = some (ja, jb) ∧
      shrinkLoop a b (scale_length s) width (scale_length s * _FUDGE) fuel ja jb
        = some (ia, ib) ∧
      ia < ib ∧
      y = (widthLim a b (scale_length s) width (scale_length s * _FUDGE) ia ib,
           tickList (scale_length s) ia ib) := by
  rw [stepCandidateW] at h
  rcases hw : widenLoop a b (scale_length s) width fuel
      ⌊a / scale_length s⌋ ⌈b / scale_length s⌉ with _ | ⟨ja, jb⟩
  · simp only [hw] at h
    exact Option.noConfusion h
  · simp only [hw] at h
    rcases hs : shrinkLoop a b (scale_length s) width (scale_length s * _FUDGE) fuel ja jb
        with _ | ⟨ia, ib⟩
    · simp only [hs] at h
      exact Option.noConfusion h
    · simp only [hs] at h
      by_cases hcnt : ib - ia + 1 < 2
      · rw [if_pos hcnt] at h
        simp at h
      · rw [if_neg hcnt] at h
        injection h with h'
        exact ⟨ja, jb, ia, ib, rfl, hs, by omega, h'.symm⟩

/-- Every yield of the bounded width enumeration comes from one step. -/
theorem ticksForWidthFrom_mem (a b width : ℚ) (fuel : ℕ) :
    ∀ n : ℕ, ∀ s : ℤ, ∀ y ∈ ticksForWidthFrom a b width s n fuel,
      ∃ t : ℤ, stepCandidateW a b width t fuel = some y := by
  intro n
  induction n with
  | zero =>
    intro s y hy
    simp [ticksForWidthFrom] at hy
  | succ n ih =>
    intro s y hy
    rw [ticksForWidthFrom, List.mem_append] at hy
    rcases hy with hy | hy
    · rcases hz : stepCandidateW a b width (s - 1) fuel with _ | z
      · rw [hz] at hy
        simp at hy
      · rw [hz] at hy
        simp at hy
        subst hy
        exact ⟨s - 1, hz⟩
    · exact ih (s - 1) y hy

/-- C10: for every `a < b` and `width > 0`, every candidate yielded by
`scale.Linear.ticks_for_width` has an axis range of exactly the requested
width: `lim[1] - lim[0] = width` in exact arithmetic, whichever branch of
the gap-distribution (`p ≤ 0`, `p ≥ 1`, or interior) produced it. -/
theorem ticks_for_width_exact_span (a b width : ℚ) (hab : a < b) (hwidth : 0 < width) :
    ∀ n fuel : ℕ, ∀ y ∈ ticks_for_width a b width n fuel,
      y.1.2 - y.1.1 = width := by
  intro n fuel y hy
  rw [ticks_for_width] at hy
  obtain ⟨t, ht⟩ := ticksForWidthFrom_mem a b width fuel n _ y hy
  obtain ⟨ja, jb, ia, ib, _, _, _, hyv⟩ := stepCandidateW_some a b width t fuel y ht
  rw [hyv]
  exact widthLim_span a b (scale_length t) width (scale_length t * _FUDGE) ia ib

/-- Concrete run of `ticks_for_width` for `(a, b) = (0, 1)` and `width = 2`:
the first (and only) candidate among the first step size. -/
theorem ticks_for_width_01_2 :
    ticks_for_width 0 1 2 1 3 = [(((0:ℚ), (2:ℚ)), tickList 2 0 1)] := by
  have h : ticks_for_width 0 1 2 1 3 = ticksForWidthFrom 0 1 2 2 1 3 := by
    rw [ticks_for_width]
    norm_num [smallest_at_two]
  have hceil : ⌈(1:ℚ)/2⌉ = 1 := by rw [Int.ceil_eq_iff]; norm_num
  have hfloor : ⌊(0:ℚ)/2⌋ = 0 := by rw [Int.floor_eq_iff]; norm_num
  rw [h, ticksForWidthFrom]
  rw [show (2:ℤ) - 1 = 1 from rfl]
  norm_num [stepCandidateW, widenLoop, shrinkLoop, widthLim, _FUDGE, scale_length_one,
    hceil, hfloor, ticksForWidthFrom]

/-- C10 witness: the theorem applied at `(a, b, width) = (0, 1, 2)` and the
candidate yielded there. -/
theorem ticks_for_width_exact_span_witness :
    (0:ℚ) < 1 ∧ (0:ℚ) < 2 ∧
    (((0:ℚ), (2:ℚ)), tickList 2 0 1) ∈ ticks_for_width 0 1 2 1 3 ∧
    (2:ℚ) - 0 = 2 := by
  have hmem : (((0:ℚ), (2:ℚ)), tickList 2 0 1) ∈ ticks_for_width 0 1 2 1 3 := by
    rw [ticks_for_width_01_2]
    simp
  exact ⟨by norm_num, by norm_num, hmem,
    ticks_for_width_exact_span 0 1 2 (by norm_num) (by norm_num) 1 3 _ hmem⟩

/-- C4 (amended): for `a < b` and `width ≥ b - a`, every candidate yielded
by `ticks_for_width` has tick span `ticks[-1] - ticks[0] ≤ width` (exactly,
not just within tolerance), and its range covers `(a, b)` up to twice the
fudge tolerance: `lim[0] ≤ a + 2·dx·1e-6` and `b - 2·dx·1e-6 ≤ lim[1]`,
where `dx` is the candidate's step size.  (The claim's exact coverage
`lim[0] ≤ a < b ≤ lim[1]` can fail by up to the fudge tolerance; see the
counterexample.) -/
theorem ticks_for_width_bounded_coverage (a b width : ℚ)
    (hab : a < b) (hwid : b - a ≤ width) :
    ∀ n fuel : ℕ, ∀ y ∈ ticks_for_width a b width n fuel,
      ∃ dx : ℚ, 0 < dx ∧
        (∃ t0 tl, y.2.head? = some t0 ∧ y.2.getLast? = some tl ∧ tl - t0 ≤ width) ∧
        y.1.1 ≤ a + 2 * (dx * _FUDGE) ∧ b - 2 * (dx * _FUDGE) ≤ y.1.2 := by
  intro n fuel y hy
  rw [ticks_for_width] at hy
  obtain ⟨t, ht⟩ := ticksForWidthFrom_mem a b width fuel n _ y hy
  obtain ⟨ja, jb, ia, ib, _, hs, hpq, hyv⟩ := stepCandidateW_some a b width t fuel y ht
  have hdx := scale_length_pos t
  have heps : 0 < scale_length t * _FUDGE := by
    rw [_FUDGE]
    positivity
  obtain ⟨hspan, hover⟩ := shrinkLoop_exit a b (scale_length t) width
    (scale_length t * _FUDGE) fuel ja jb ia ib hs
  have hba' : b - a ≤ width + scale_length t * _FUDGE := by linarith
  obtain ⟨h1, h2⟩ := hover hba'
  refine ⟨scale_length t, hdx, ?_, ?_⟩
  · rw [hyv]
    refine ⟨(ia:ℚ) * scale_length t, (ib:ℚ) * scale_length t,
      tickList_head? _ (le_of_lt hpq), tickList_getLast? _ (le_of_lt hpq), ?_⟩
    have hcast : ((ib - ia : ℤ) : ℚ) = (ib:ℚ) - (ia:ℚ) := by push_cast; ring
    rw [hcast] at hspan
    linarith
  · rw [hyv]
    exact widthLim_cover a b (scale_length t) width (scale_length t * _FUDGE)
      heps hwid ia ib hspan h1 h2

/-- C4 witness: the amended theorem applied at `(a, b, width) = (0, 1, 2)`
and the candidate yielded there. -/
theorem ticks_for_width_bounded_coverage_witness :
    (0:ℚ) < 1 ∧ (1:ℚ) - 0 ≤ 2 ∧
    (((0:ℚ), (2:ℚ)), tickList 2 0 1) ∈ ticks_for_width 0 1 2 1 3 ∧
    (∃ dx : ℚ, 0 < dx ∧
      (∃ t0 tl, (tickList 2 0 1).head? = some t0 ∧ (tickList 2 0 1).getLast? = some tl ∧
        tl - t0 ≤ 2) ∧
      (0:ℚ) ≤ 0 + 2 * (dx * _FUDGE) ∧ (1:ℚ) - 2 * (dx * _FUDGE) ≤ 2) := by
  have hmem : (((0:ℚ), (2:ℚ)), tickList 2 0 1) ∈ ticks_for_width 0 1 2 1 3 := by
    rw [ticks_for_width_01_2]
    simp
  exact ⟨by norm_num, by norm_num, hmem,
    ticks_for_width_bounded_coverage 0 1 2 (by norm_num) (by norm_num) 1 3 _ hmem⟩

theorem stepCandidateW_eps :
    stepCandidateW (1/2) (20000001/10000000) 2 1 3
      = some (((0:ℚ), (2:ℚ)), tickList 2 0 1) := by
  have hceil : ⌈(20000001:ℚ)/20000000⌉ = 2 := by rw [Int.ceil_eq_iff]; norm_num
  have hfloor : ⌊(1:ℚ)/4⌋ = 0 := by rw [Int.floor_eq_iff]; norm_num
  norm_num [stepCandidateW, widenLoop, shrinkLoop, widthLim, _FUDGE, scale_length_one,
    hceil, hfloor]

/-- C4 counterexample: with `a = 1/2`, `b = 2.0000001` and `width = 2`
(`width ≥ b - a` holds), `ticks_for_width` yields the candidate with range
`(0, 2)`, and `b = 2.0000001 > 2 = lim[1]`: the exact coverage
`b ≤ range[1]` claimed fails (by less than the fudge tolerance). -/
theorem ticks_for_width_bounded_coverage_counterexample :
    (20000001:ℚ)/10000000 - 1/2 ≤ 2 ∧
    (((0:ℚ), (2:ℚ)), tickList 2 0 1) ∈ ticks_for_width (1/2) (20000001/10000000) 2 1 3 ∧
    (2:ℚ) < 20000001/10000000 := by
  refine ⟨by norm_num, ?_, by norm_num⟩
  have h : ticks_for_width (1/2) (20000001/10000000) 2 1 3
      = ticksForWidthFrom (1/2) (20000001/10000000) 2 2 1 3 := by
    rw [ticks_for_width]
    norm_num [smallest_at_two]
  rw [h, ticksForWidthFrom]
  rw [show (2:ℤ) - 1 = 1 from rfl, stepCandidateW_eps]
  simp [ticksForWidthFrom]

/-! ## `canvas._fixup_lim` (`jvplot/canvas.py` lines 38–65)

Only the numeric tail of the function is modelled: the claim concerns a pair
of finite floats, so the `None`-substitution from data and the type-error
paths for non-numeric input are out of scope. -/

/-- `canvas._fixup_lim(lim)` for a pair of finite numbers `(a, b)`. -/
def _fixup_lim (a b : ℚ) : Except String (ℚ × ℚ) :=
  if b < a then .error "lower bound must not be larger than upper bound"
  else if a ≠ b then .ok (a, b)
  else if a = 0 then .ok (-1, 1)
  else .ok (min a 0, max a 0)

/-- C9: for finite `(a, b)` with `a ≤ b`, `_fixup_lim` does not raise and
returns a non-degenerate pair `(lo, hi)` with `lo < hi ∧ lo ≤ a ∧ b ≤ hi`;
the degenerate inputs are widened deterministically (`a = b = 0` to
`(-1, 1)`, `a = b ≠ 0` to `(min(a,0), max(a,0))`), and `b < a` raises. -/
theorem fixup_lim_spec (a b : ℚ) :
    (a ≤ b → ∃ lo hi, _fixup_lim a b = .ok (lo, hi) ∧ lo < hi ∧ lo ≤ a ∧ b ≤ hi) ∧
    (a = b → a = 0 → _fixup_lim a b = .ok (-1, 1)) ∧
    (a = b → a ≠ 0 → _fixup_lim a b = .ok (min a 0, max a 0)) ∧
    (b < a → ∃ msg, _fixup_lim a b = .error msg) := by
  refine ⟨?_, ?_, ?_, ?_⟩
  · intro hab
    rw [_fixup_lim, if_neg (not_lt.mpr hab)]
    by_cases hne : a ≠ b
    · rw [if_pos hne]
      exact ⟨a, b, rfl, lt_of_le_of_ne hab hne, le_refl a, le_refl b⟩
    · rw [if_neg hne]
      push_neg at hne
      subst hne
      by_cases h0 : a = 0
      · rw [if_pos h0]
        subst h0
        exact ⟨-1, 1, rfl, by norm_num, by norm_num, by norm_num⟩
      · rw [if_neg h0]
        refine ⟨min a 0, max a 0, rfl, ?_, min_le_left a 0, le_max_left a 0⟩
        rcases lt_trichotomy a 0 with h | h | h
        · rw [min_eq_left (le_of_lt h), max_eq_right (le_of_lt h)]
          exact h
        · exact absurd h h0
        · rw [min_eq_right (le_of_lt h), max_eq_left (le_of_lt h)]
          exact h
  · intro hab h0
    subst hab
    rw [_fixup_lim, if_neg (lt_irrefl a), if_neg (by simp), if_pos h0]
  · intro hab h0
    subst hab
    rw [_fixup_lim, if_neg (lt_irrefl a), if_neg (by simp), if_neg h0]
  · intro hba
    rw [_fixup_lim, if_pos hba]
    exact ⟨_, rfl⟩

/-- C9 witness: the theorem applied at the degenerate input `(5, 5)` and at
the reversed input `(3, 2)`. -/
theorem fixup_lim_spec_witness :
    (∃ lo hi, _fixup_lim 5 5 = .ok (lo, hi) ∧ lo < hi ∧ lo ≤ 5 ∧ 5 ≤ hi) ∧
    _fixup_lim 5 5 = .ok (min 5 0, max 5 0) ∧
    (∃ msg, _fixup_lim 3 2 = .error msg) :=
  ⟨(fixup_lim_spec 5 5).1 (by norm_num),
    (fixup_lim_spec 5 5).2.2.1 rfl (by norm_num),
    (fixup_lim_spec 3 2).2.2.2 (by norm_num)⟩

/-! ## Label-shift objectives: `layout.Layout.label_penalty` (`jvplot/layout.py`
lines 104–145) and `axes._shift_labels` (`jvplot/axes.py` lines 488–502)

Both functions hand a loss closure to `scipy.optimize.minimize` with bounds
`[(0, 1)]*n` (L-BFGS-B).  The optimizer itself is not modelled; the
objectives are, elementwise over lists, with `l = pos - shift*widths` and
`r = pos + (1-shift)*widths`. -/

/-- `l = pos - shift * widths` (elementwise). -/
def shiftsL (pos widths shift : List ℚ) : List ℚ :=
  List.zipWith (fun pw s => pw.1 - s * pw.2) (pos.zip widths) shift

/-- `r = pos + (1 - shift) * widths` (elementwise). -/
def shiftsR (pos widths shift : List ℚ) : List ℚ :=
  List.zipWith (fun pw s => pw.1 + (1 - s) * pw.2) (pos.zip widths) shift

/-- Sum of squared clamped out-of-bounds overhangs of the first label past
`lo` and the last label past `hi`:
`np.sum(np.square(np.maximum([lo - l[0], r[-1] - hi], 0)))`. -/
def outOfBoundsSq (lo hi : ℚ) (l r : List ℚ) : ℚ :=
  (max (lo - l.headD 0) 0) ^ 2 + (max (r.getLastD 0 - hi) 0) ^ 2

/-- Sum of squared clamped overlaps of adjacent labels:
`np.sum(np.square(np.maximum(r[:-1] - l[1:] + sep, 0)))`. -/
def overlapSq (sep : ℚ) (l r : List ℚ) : ℚ :=
  ((r.zip l.tail).map (fun u => (max (u.1 - u.2 + sep) 0) ^ 2)).sum

/-- Sum of squared deviations of the shifts from centered:
`np.sum(np.square(shift - .5))`. -/
def centerSq (shift : List ℚ) : ℚ :=
  (shift.map (fun s => (s - 1/2) ^ 2)).sum

/-- The loss closure of `layout.Layout.label_penalty`:
`100 * a + 10 * b + c` with `a` the out-of-bounds term over
`[-l[0], r[-1] - dev_width]`, `b` the adjacent-overlap term, and `c` the
sum of `((shift - .5) * sep)²`. -/
def label_penalty_loss (devWidth sep : ℚ) (pos widths shift : List ℚ) : ℚ :=
  let l := shiftsL pos widths shift
  let r := shiftsR pos widths shift
  100 * ((max (-(l.headD 0)) 0) ^ 2 + (max (r.getLastD 0 - devWidth) 0) ^ 2)
    + 10 * ((r.zip l.tail).map (fun u => (max (u.1 - u.2 + sep) 0) ^ 2)).sum
    + (shift.map (fun s => ((s - 1/2) * sep) ^ 2)).sum

/-- The loss closure of `axes._shift_labels`:
`a + .1 * b + .01 * c` with `a` the adjacent-overlap term, `b` the
out-of-bounds term over `[left - l[0], r[-1] - right]`, and `c` the sum of
`(qq - .5)²`. -/
def shift_labels_loss (left right sep : ℚ) (xx ww qq : List ℚ) : ℚ :=
  let l := shiftsL xx ww qq
  let r := shiftsR xx ww qq
  ((r.zip l.tail).map (fun u => (max (u.1 - u.2 + sep) 0) ^ 2)).sum
    + (1/10) * ((max (left - l.headD 0) 0) ^ 2 + (max (r.getLastD 0 - right) 0) ^ 2)
    + (1/100) * (qq.map (fun s => (s - 1/2) ^ 2)).sum

theorem sum_map_mul_sq (sep : ℚ) (shift : List ℚ) :
    (shift.map (fun s => ((s - 1/2) * sep) ^ 2)).sum
      = sep ^ 2 * (shift.map (fun s => (s - 1/2) ^ 2)).sum := by
  induction shift with
  | nil => simp
  | cons x xs ih =>
    simp only [List.map_cons, List.sum_cons, ih]
    ring

/-- C8 (amended): the minimized objective of `layout.Layout.label_penalty`
weighs out-of-bounds, adjacent-overlap and deviation-from-centered as
`100 : 10 : 1` (out-of-bounds heaviest, the centered term carrying a `sep²`
factor), but the objective of `axes._shift_labels` weighs adjacent-overlap,
out-of-bounds and deviation-from-centered as `1 : 0.1 : 0.01` — the same
100 : 10 : 1 proportion with *adjacent overlap* heaviest and out-of-bounds
only second.  Both are handed to a box-constrained minimizer over per-label
shifts in `[0, 1]`. -/
theorem label_shift_objective_weights (devWidth sep left right : ℚ)
    (pos widths shift xx ww qq : List ℚ) :
    label_penalty_loss devWidth sep pos widths shift
      = 100 * outOfBoundsSq 0 devWidth (shiftsL pos widths shift) (shiftsR pos widths shift)
        + 10 * overlapSq sep (shiftsL pos widths shift) (shiftsR pos widths shift)
        + sep ^ 2 * centerSq shift ∧
    shift_labels_loss left right sep xx ww qq
      = overlapSq sep (shiftsL xx ww qq) (shiftsR xx ww qq)
        + (1/10) * outOfBoundsSq left right (shiftsL xx ww qq) (shiftsR xx ww qq)
        + (1/100) * centerSq qq := by
  constructor
  · rw [label_penalty_loss, outOfBoundsSq, overlapSq, centerSq, sum_map_mul_sq]
    ring_nf
  · rw [shift_labels_loss, outOfBoundsSq, overlapSq, centerSq]

/-- C8 counterexample: in `axes._shift_labels`, a configuration whose only
violation is a unit out-of-bounds overhang (single label of width 2 centered
at 0 against left bound 0) scores `1/10`, while a configuration whose only
violation is a unit adjacent overlap (two labels at 0 and 9 with `sep = 10`)
scores `1` — ten times more.  So out-of-bounds is *not* the heaviest term
there, refuting the claimed `100 : 10 : 1` (out-of-bounds heaviest)
weighting for `axes._shift_labels`. -/
theorem shift_labels_weights_counterexample :
    shift_labels_loss 0 10 5 [0] [2] [1/2] = 1/10 ∧
    outOfBoundsSq 0 10 (shiftsL [0] [2] [1/2]) (shiftsR [0] [2] [1/2]) = 1 ∧
    overlapSq 5 (shiftsL [0] [2] [1/2]) (shiftsR [0] [2] [1/2]) = 0 ∧
    centerSq [(1:ℚ)/2] = 0 ∧
    shift_labels_loss (-100) 100 10 [0, 9] [0, 0] [1/2, 1/2] = 1 ∧
    outOfBoundsSq (-100) 100 (shiftsL [0, 9] [0, 0] [1/2, 1/2])
      (shiftsR [0, 9] [0, 0] [1/2, 1/2]) = 0 ∧
    overlapSq 10 (shiftsL [0, 9] [0, 0] [1/2, 1/2])
      (shiftsR [0, 9] [0, 0] [1/2, 1/2]) = 1 ∧
    centerSq [(1:ℚ)/2, 1/2] = 0 ∧
    (1:ℚ)/10 < 1 := by
  refine ⟨?_, ?_, ?_, ?_, ?_, ?_, ?_, ?_, by norm_num⟩ <;>
    norm_num [shift_labels_loss, outOfBoundsSq, overlapSq, centerSq, shiftsL, shiftsR]

/-! ## `layout.Layout2D.fix` (`jvplot/layout.py` lines 163–284)

`_fix_one` plans a single axis: it enumerates candidates through the
scale's generators and scores them with `Layout.penalty()` (which runs the
scipy label-shift optimization), so the single-axis planner is abstracted as
a function parameter.  Its data flow is preserved: the planner sees only the
axis's immutable inputs (device width, data range, and — when not to be
replanned — the fixed limits and ticks), and `_fix_one` writes back exactly
the fields the Python code writes in each of its four branches.  The
`ValueError` raised by `_fix_one` itself and the state save/restore dance of
`fix` are modelled explicitly; `math.inf` scores of skipped orderings are
modelled as `none`, and `math.sqrt` as `Real.sqrt`. -/

/-- A single axis `Layout`: device width and data range are the immutable
inputs; `lim`, `ticks`, `labels`, `shift` start as `None` unless fixed by
the caller and are written by planning. -/
structure AxisLayout where
  devWidth : ℚ
  dataRange : ℚ × ℚ
  lim : Option (ℚ × ℚ)
  ticks : Option (List ℚ)
  labels : Option (List String)
  shift : Option (List ℚ)
deriving DecidableEq

/-- What `_fix_one`'s candidate search may read. -/
structure PlanIn where
  devWidth : ℚ
  dataRange : ℚ × ℚ
  lim : Option (ℚ × ℚ)
  ticks : Option (List ℚ)
deriving DecidableEq

/-- What `_fix_one`'s candidate search produces. -/
structure PlanOut where
  lim : Option (ℚ × ℚ)
  ticks : Option (List ℚ)
  labels : Option (List String)
  shift : Option (List ℚ)
deriving DecidableEq

/-- The abstracted single-axis planner: candidate enumeration plus penalty
evaluation of `_fix_one` (including the scipy call inside
`Layout.label_penalty`), returning the planned fields and the best penalty. -/
def Planner : Type := Option ℚ → PlanIn → PlanOut × ℝ

/-- The inputs `_fix_one` reads for an axis: fixed limits and ticks are
visible only when they are not themselves being planned. -/
def planIn (needLim needTicks : Bool) (ax : AxisLayout) : PlanIn :=
  { devWidth := ax.devWidth, dataRange := ax.dataRange,
    lim := if needLim then none else ax.lim,
    ticks := if needTicks then none else ax.ticks }

/-- The fields `_fix_one` writes back: `lim` only when `need_lim`, `ticks`
and `labels` only when `need_ticks`, `shift` always. -/
def applyPlan (needLim needTicks : Bool) (ax : AxisLayout) (o : PlanOut) : AxisLayout :=
  { ax with
    lim := if needLim then o.lim else ax.lim,
    ticks := if needTicks then o.ticks else ax.ticks,
    labels := if needTicks then o.labels else ax.labels,
    shift := o.shift }

/-- `Layout2D._fix_one(axis, width)`: raises when a width bound is combined
with fixed limits, otherwise plans the axis. -/
def fix_one (plan : Planner) (needLim needTicks : Bool) (width : Option ℚ)
    (ax : AxisLayout) : Except String (AxisLayout × ℝ) :=
  if width.isSome && !needLim then
    .error "cannot combine fixed limits with fixed width"
  else
    let po := plan width (planIn needLim needTicks ax)
    .ok (applyPlan needLim needTicks ax po.1, po.2)

/-- `_d(pair)` applied to a planned `lim` (`None` is out of the modelled
scope; Python would raise a `TypeError` there). -/
def dOptLim : Option (ℚ × ℚ) → ℚ
  | some lim => lim.2 - lim.1
  | none => 0

structure Layout2D where
  x : AxisLayout
  y : AxisLayout
deriving DecidableEq

/-- Restore the four saved fields (`ticks`, `labels`, `shift`, `lim`) of a
best layout onto the current state, as the end of `fix` does. -/
def restoreFields (ax sv : AxisLayout) : AxisLayout :=
  { ax with ticks := sv.ticks, labels := sv.labels, shift := sv.shift, lim := sv.lim }

/-- `pxy < pyx` with `none` standing for `math.inf`. -/
def oltReal : Option ℝ → Option ℝ → Prop
  | none, _ => False
  | some _, none => True
  | some p, some q => p < q

noncomputable instance oltReal.decidable (u v : Option ℝ) : Decidable (oltReal u v) :=
  match u, v with
  | none, _ => isFalse id
  | some _, none => isTrue trivial
  | some p, some q => inferInstanceAs (Decidable (p < q))

/-- The final comparison of `fix`: restore the saved x-first best when
`pxy < pyx`. -/
noncomputable def fixFinish (saved : Option (AxisLayout × AxisLayout × ℝ)) (pyx : Option ℝ)
    (t : Layout2D) : Option String × Layout2D :=
  match saved with
  | none => (none, t)
  | some (bx, b1, pxy) =>
    if oltReal (some pxy) pyx
    then (none, { x := restoreFields t.x bx, y := restoreFields t.y b1 })
    else (none, t)

/-- The `if self.need_x_lim:` half of `fix`: plan y independently, then x
bounded by the derived width, on the current (possibly already replanned)
state. -/
noncomputable def fixSecond (PX PY : Planner) (r : ℚ)
    (needXlim needXticks needYlim needYticks : Bool)
    (saved : Option (AxisLayout × AxisLayout × ℝ)) (t : Layout2D) :
    Option String × Layout2D :=
  if needXlim then
    match fix_one PY needYlim needYticks none t.y with
    | .error e => (some e, t)
    | .ok (y2, py2) =>
      let w2 := t.x.devWidth / y2.devWidth * dOptLim y2.lim / r
      match fix_one PX needXlim needXticks (some w2) t.x with
      | .error e => (some e, { x := t.x, y := y2 })
      | .ok (x2, px2) =>
        fixFinish saved (some (Real.sqrt (px2 ^ 2 + py2 ^ 2))) { x := x2, y := y2 }
  else fixFinish saved none t

/-- `layout.Layout2D.fix(aspect)`. -/
noncomputable def Layout2D.fix (PX PY : Planner) (aspect : Option ℚ) (s : Layout2D) :
    Option String × Layout2D :=
  let needXlim := s.x.lim.isNone
  let needXticks := s.x.ticks.isNone
  let needYlim := s.y.lim.isNone
  let needYticks := s.y.ticks.isNone
  match aspect with
  | none =>
    match fix_one PX needXlim needXticks none s.x with
    | .error e => (some e, s)
    | .ok (x1, _) =>
      match fix_one PY needYlim needYticks none s.y with
      | .error e => (some e, { x := x1, y := s.y })
      | .ok (y1, _) => (none, { x := x1, y := y1 })
  | some r =>
    if !needXlim && !needYlim then
      (some "cannot fix aspect ratio and both axes", s)
    else
      if needYlim then
        match fix_one PX needXlim needXticks none s.x with
        | .error e => (some e, s)
        | .ok (x1, px) =>
          let w := s.y.devWidth / x1.devWidth * dOptLim x1.lim * r
          match fix_one PY needYlim needYticks (some w) s.y with
          | .error e => (some e, { x := x1, y := s.y })
          | .ok (y1, py) =>
            fixSecond PX PY r needXlim needXticks needYlim needYticks
              (some (x1, y1, Real.sqrt (px ^ 2 + py ^ 2))) { x := x1, y := y1 }
      else fixSecond PX PY r needXlim needXticks needYlim needYticks none s

theorem fix_one_none_ok (P : Planner) (nl nt : Bool) (ax : AxisLayout) :
    fix_one P nl nt none ax
      = .ok (applyPlan nl nt ax (P none (planIn nl nt ax)).1,
             (P none (planIn nl nt ax)).2) := by
  rw [fix_one]
  simp

theorem fix_one_needLim_ok (P : Planner) (nt : Bool) (w : ℚ) (ax : AxisLayout) :
    fix_one P true nt (some w) ax
      = .ok (applyPlan true nt ax (P (some w) (planIn true nt ax)).1,
             (P (some w) (planIn true nt ax)).2) := by
  rw [fix_one]
  simp
theorem fixFinish_fst (sv : Option (AxisLayout × AxisLayout × ℝ)) (pyx : Option ℝ)
    (t : Layout2D) : ∃ t', fixFinish sv pyx t = (none, t') := by
  rw [fixFinish.eq_def]
  split
  · exact ⟨t, rfl⟩
  · split
    · exact ⟨_, rfl⟩
    · exact ⟨t, rfl⟩

theorem fixSecond_fst (PX PY : Planner) (r : ℚ) (nxt nyl nyt : Bool)
    (sv : Option (AxisLayout × AxisLayout × ℝ)) (t : Layout2D) :
    ∃ t', fixSecond PX PY r true nxt nyl nyt sv t = (none, t') := by
  rw [fixSecond]
  simp only [if_true]
  split
  · rename_i e heq
    rw [fix_one_none_ok] at heq
    cases heq
  · rename_i y2 py2 heq
    split
    · rename_i e heq2
      rw [fix_one_needLim_ok] at heq2
      cases heq2
    · exact fixFinish_fst sv _ _

/-- C7: `layout.Layout2D.fix` signals an error exactly when an aspect ratio
is requested while both axes already have fixed limits; the error is raised
before any planning, leaving both layouts unchanged; with `aspect=None` this
error is never raised. -/
theorem fix_error_iff (PX PY : Planner) (aspect : Option ℚ) (s : Layout2D) :
    ((Layout2D.fix PX PY aspect s).1 ≠ none ↔
      aspect ≠ none ∧ s.x.lim ≠ none ∧ s.y.lim ≠ none) ∧
    ((Layout2D.fix PX PY aspect s).1 ≠ none → (Layout2D.fix PX PY aspect s).2 = s) := by
  rcases aspect with _ | r
  · -- aspect = None: both axes planned independently, never an error
    have hres : (Layout2D.fix PX PY none s).1 = none := by
      rw [Layout2D.fix]
      split
      · rename_i e heq
        rw [fix_one_none_ok] at heq
        cases heq
      · rename_i x1 p1 heq
        split
        · rename_i e heq2
          rw [fix_one_none_ok] at heq2
          cases heq2
        · rfl
    constructor
    · rw [hres]
      simp
    · rw [hres]
      intro h
      exact absurd rfl h
  · by_cases hX : s.x.lim = none <;> by_cases hY : s.y.lim = none
    · -- both planned: order 1 runs, then order 2
      have hres : ∃ t', Layout2D.fix PX PY (some r) s = (none, t') := by
        rw [Layout2D.fix]
        simp only [hX, hY, Option.isNone_none, Bool.not_true, Bool.false_and,
          Bool.false_eq_true, if_false, if_true]
        split
        · rename_i e heq
          rw [fix_one_none_ok] at heq
          cases heq
        · rename_i x1 px heq
          split
          · rename_i e heq2
            rw [fix_one_needLim_ok] at heq2
            cases heq2
          · exact fixSecond_fst PX PY r _ _ _ _ _
      obtain ⟨t', ht'⟩ := hres
      rw [ht']
      refine ⟨by simp [hY], ?_⟩
      intro h
      exact absurd rfl h
    · -- y fixed, x planned: only order 2 runs
      have hres : ∃ t', Layout2D.fix PX PY (some r) s = (none, t') := by
        rw [Layout2D.fix]
        rcases hY' : s.y.lim with _ | yl
        · exact absurd hY' hY
        simp only [hX, hY', Option.isNone_none, Option.isNone_some, Bool.not_true,
          Bool.not_false, Bool.false_and, Bool.false_eq_true, if_false]
        exact fixSecond_fst PX PY r _ _ _ _ _
      obtain ⟨t', ht'⟩ := hres
      rw [ht']
      refine ⟨by simp [hX], ?_⟩
      intro h
      exact absurd rfl h
    · -- x fixed, y planned: only order 1 runs, order 2 skipped
      have hres : ∃ t', Layout2D.fix PX PY (some r) s = (none, t') := by
        rw [Layout2D.fix]
        rcases hX' : s.x.lim with _ | xl
        · exact absurd hX' hX
        simp only [hX', hY, Option.isNone_none, Option.isNone_some, Bool.not_true,
          Bool.not_false, Bool.and_false, Bool.false_eq_true, if_false, if_true]
        split
        · rename_i e heq
          rw [fix_one_none_ok] at heq
          cases heq
        · rename_i x1 px heq
          split
          · rename_i e heq2
            rw [fix_one_needLim_ok] at heq2
            cases heq2
          · rename_i y1 py heq2
            rw [fixSecond]
            simp only [Option.isNone_some, Bool.false_eq_true, if_false]
            exact fixFinish_fst _ _ _
      obtain ⟨t', ht'⟩ := hres
      rw [ht']
      refine ⟨by simp [hY], ?_⟩
      intro h
      exact absurd rfl h
    · -- both fixed: the conflict error, raised before any planning
      have hres : Layout2D.fix PX PY (some r) s
          = (some "cannot fix aspect ratio and both axes", s) := by
        rw [Layout2D.fix]
        rcases hX' : s.x.lim with _ | xl
        · exact absurd hX' hX
        rcases hY' : s.y.lim with _ | yl
        · exact absurd hY' hY
        simp [hX', hY']
      rw [hres]
      refine ⟨by simp [hX, hY], fun _ => rfl⟩

theorem applyPlan_devWidth (nl nt : Bool) (ax : AxisLayout) (o : PlanOut) :
    (applyPlan nl nt ax o).devWidth = ax.devWidth := rfl

theorem applyPlan_dataRange (nl nt : Bool) (ax : AxisLayout) (o : PlanOut) :
    (applyPlan nl nt ax o).dataRange = ax.dataRange := rfl

theorem applyPlan_lim_true (nt : Bool) (ax : AxisLayout) (o : PlanOut) :
    (applyPlan true nt ax o).lim = o.lim := by
  simp [applyPlan]

/-- A replanned axis presents the same immutable planning inputs as the
original axis: `_fix_one` only reads fields it does not overwrite. -/
theorem planIn_applyPlan (nt nl' : Bool) (ax : AxisLayout) (o' : PlanOut) :
    planIn true nt (applyPlan nl' nt ax o') = planIn true nt ax := by
  cases nt <;> simp [planIn, applyPlan]

/-- Replanning an axis overwrites the previous plan completely. -/
theorem applyPlan_applyPlan (nl' nt : Bool) (ax : AxisLayout) (o' o : PlanOut) :
    applyPlan true nt (applyPlan nl' nt ax o') o = applyPlan true nt ax o := by
  cases nt <;> simp [applyPlan]

/-- Restoring the saved fields of an earlier plan over a later plan of the
same axis recovers the earlier plan. -/
theorem restoreFields_applyPlan (nt : Bool) (ax : AxisLayout) (o o' : PlanOut) :
    restoreFields (applyPlan true nt ax o) (applyPlan true nt ax o')
      = applyPlan true nt ax o' := by
  cases nt <;> simp [restoreFields, applyPlan]

/-- The claim's first planning order, written directly: plan the x axis
independently, derive the y width bound from its limits, plan y bounded;
the combined score is `sqrt(px² + py²)`. -/
noncomputable def fixOrderXFirst (PX PY : Planner) (r : ℚ) (s : Layout2D) : Layout2D × ℝ :=
  let po := PX none (planIn s.x.lim.isNone s.x.ticks.isNone s.x)
  let x1 := applyPlan s.x.lim.isNone s.x.ticks.isNone s.x po.1
  let w := s.y.devWidth / x1.devWidth * dOptLim x1.lim * r
  let qo := PY (some w) (planIn s.y.lim.isNone s.y.ticks.isNone s.y)
  let y1 := applyPlan s.y.lim.isNone s.y.ticks.isNone s.y qo.1
  (⟨x1, y1⟩, Real.sqrt (po.2 ^ 2 + qo.2 ^ 2))

/-- The claim's second planning order: plan y independently, then x bounded. -/
noncomputable def fixOrderYFirst (PX PY : Planner) (r : ℚ) (s : Layout2D) : Layout2D × ℝ :=
  let qo := PY none (planIn s.y.lim.isNone s.y.ticks.isNone s.y)
  let y1 := applyPlan s.y.lim.isNone s.y.ticks.isNone s.y qo.1
  let w := s.x.devWidth / y1.devWidth * dOptLim y1.lim / r
  let po := PX (some w) (planIn s.x.lim.isNone s.x.ticks.isNone s.x)
  let x1 := applyPlan s.x.lim.isNone s.x.ticks.isNone s.x po.1
  (⟨x1, y1⟩, Real.sqrt (po.2 ^ 2 + qo.2 ^ 2))

/-- C6 (amended): when an aspect ratio is requested and neither axis has
fixed limits, `layout.Layout2D.fix` evaluates both planning orders — x
planned independently then y bounded, and vice versa — and returns the one
whose combined score `sqrt(px² + py²)` is smaller (ties go to the y-first
order, matching the code's strict comparison).  The parenthetical reference
of the claim to `coords.ranges_and_ticks` does not hold; see the
counterexample. -/
theorem fix_aspect_both_orders (PX PY : Planner) (r : ℚ) (s : Layout2D)
    (hx : s.x.lim = none) (hy : s.y.lim = none) :
    (Layout2D.fix PX PY (some r) s).1 = none ∧
    ((fixOrderXFirst PX PY r s).2 < (fixOrderYFirst PX PY r s).2 →
      (Layout2D.fix PX PY (some r) s).2 = (fixOrderXFirst PX PY r s).1) ∧
    ((fixOrderYFirst PX PY r s).2 ≤ (fixOrderXFirst PX PY r s).2 →
      (Layout2D.fix PX PY (some r) s).2 = (fixOrderYFirst PX PY r s).1) := by
  have hfix : Layout2D.fix PX PY (some r) s
      = (none,
          if (fixOrderXFirst PX PY r s).2 < (fixOrderYFirst PX PY r s).2
          then (fixOrderXFirst PX PY r s).1
          else (fixOrderYFirst PX PY r s).1) := by
    rw [Layout2D.fix]
    simp only [hx, hy, Option.isNone_none, Bool.not_true, Bool.false_and,
      Bool.false_eq_true, if_false, if_true, fix_one_none_ok, fix_one_needLim_ok,
      fixSecond, fixFinish, planIn_applyPlan, applyPlan_applyPlan,
      applyPlan_devWidth, applyPlan_dataRange, oltReal, restoreFields_applyPlan,
      fixOrderXFirst, fixOrderYFirst]
    split <;> rename_i h <;> simp [h]
  rw [hfix]
  refine ⟨rfl, ?_, ?_⟩
  · intro h
    rw [if_pos h]
  · intro h
    rw [if_neg (not_lt.mpr h)]

/-- A fully unconstrained axis for exercising the aspect path of `fix`. -/
def demoAxOpen : AxisLayout :=
  { devWidth := 1, dataRange := (0, 1), lim := none, ticks := none,
    labels := none, shift := none }

def demoPlanOut : PlanOut :=
  { lim := some (0, 1), ticks := some [0, 1], labels := none, shift := none }

/-- A planner scoring 0 unbounded and 3 bounded. -/
noncomputable def demoPX : Planner :=
  fun w _ => (demoPlanOut, if w.isSome then (3 : ℝ) else 0)

/-- A planner scoring 2 unbounded and 1 bounded. -/
noncomputable def demoPY : Planner :=
  fun w _ => (demoPlanOut, if w.isSome then (1 : ℝ) else 2)

theorem fix_aspect_both_orders_witness :
    (⟨demoAxOpen, demoAxOpen⟩ : Layout2D).x.lim = none ∧
    (⟨demoAxOpen, demoAxOpen⟩ : Layout2D).y.lim = none ∧
    (fixOrderXFirst demoPX demoPY 1 ⟨demoAxOpen, demoAxOpen⟩).2
      < (fixOrderYFirst demoPX demoPY 1 ⟨demoAxOpen, demoAxOpen⟩).2 ∧
    (Layout2D.fix demoPX demoPY (some 1) ⟨demoAxOpen, demoAxOpen⟩).1 = none ∧
    (Layout2D.fix demoPX demoPY (some 1) ⟨demoAxOpen, demoAxOpen⟩).2
      = (fixOrderXFirst demoPX demoPY 1 ⟨demoAxOpen, demoAxOpen⟩).1 := by
  have hX : (fixOrderXFirst demoPX demoPY 1 ⟨demoAxOpen, demoAxOpen⟩).2
      = Real.sqrt ((0 : ℝ) ^ 2 + 1 ^ 2) := rfl
  have hY : (fixOrderYFirst demoPX demoPY 1 ⟨demoAxOpen, demoAxOpen⟩).2
      = Real.sqrt ((3 : ℝ) ^ 2 + 2 ^ 2) := rfl
  have hlt : (fixOrderXFirst demoPX demoPY 1 ⟨demoAxOpen, demoAxOpen⟩).2
      < (fixOrderYFirst demoPX demoPY 1 ⟨demoAxOpen, demoAxOpen⟩).2 := by
    rw [hX, hY]
    exact Real.sqrt_lt_sqrt (by norm_num) (by norm_num)
  obtain ⟨h1, h2, _⟩ :=
    fix_aspect_both_orders demoPX demoPY 1 ⟨demoAxOpen, demoAxOpen⟩ rfl rfl
  exact ⟨rfl, rfl, hlt, h1, h2 hlt⟩

/-! ## `coords.ranges_and_ticks` (`jvplot/coords.py` lines 170–232)

The claim also names `coords.ranges_and_ticks` as an implementation of the
two-orderings-with-sqrt-score selection.  The code there is different: with
an aspect ratio it runs two nested loops over ALL candidate pairs (x
candidate with y candidates bounded by the x length, then y candidate with
x candidates bounded by the y length) and keeps the single pair minimizing
the plain sum `px + py` over one shared running best.  `try_single` and
`penalties` are abstracted as functions; `np.inf` as the initial best is
modelled as `none`, and the strict `p < best_p` update is kept. -/

def Cand : Type := (ℚ × ℚ) × List ℚ

/-- An abstracted `coords` scale: candidate enumeration `try_single`
(taking the optional `length` bound) plus the summed `penalties` score for
a candidate, with the device geometry fixed. -/
structure CoordsScale where
  trySingle : Option ℚ → List Cand
  pen : (ℚ × ℚ) → List ℚ → ℚ

/-- The `if p < best_p:` update of the running best. -/
def coordsUpdate {C : Type} (best : Option (ℚ × C)) (p : ℚ) (c : C) : Option (ℚ × C) :=
  match best with
  | none => some (p, c)
  | some (bp, bc) => if p < bp then some (p, c) else some (bp, bc)

/-- Best single-axis candidate, as in the `aspect is None` loops. -/
def coordsBest1 (pen : (ℚ × ℚ) → List ℚ → ℚ) (cands : List Cand) : Option Cand :=
  (cands.foldl (fun b c => coordsUpdate b (pen c.1 c.2) c) none).map (fun z => z.2)

/-- First aspect loop: every x candidate paired with every y candidate
bounded by `l = (x_range[1]-x_range[0]) * aspect * w / h`. -/
def aspectLoopX (xs ys : CoordsScale) (r w h : ℚ) (best : Option (ℚ × (Cand × Cand))) :
    Option (ℚ × (Cand × Cand)) :=
  (xs.trySingle none).foldl (fun b xc =>
    let px := xs.pen xc.1 xc.2
    let l := (xc.1.2 - xc.1.1) * r * w / h
    (ys.trySingle (some l)).foldl (fun bb yc =>
      coordsUpdate bb (px + ys.pen yc.1 yc.2) (xc, yc)) b) best

/-- Second aspect loop: every y candidate paired with every x candidate
bounded by `l = (y_range[1]-y_range[0]) / aspect / w * h`, continuing from
the first loop's running best. -/
def aspectLoopY (xs ys : CoordsScale) (r w h : ℚ) (best : Option (ℚ × (Cand × Cand))) :
    Option (ℚ × (Cand × Cand)) :=
  (ys.trySingle none).foldl (fun b yc =>
    let py := ys.pen yc.1 yc.2
    let l := (yc.1.2 - yc.1.1) / r / w * h
    (xs.trySingle (some l)).foldl (fun bb xc =>
      coordsUpdate bb (xs.pen xc.1 xc.2 + py) (xc, yc)) b) best

/-- `coords.ranges_and_ticks`, returning the chosen (x, y) candidate pair
(`none` when a loop never ran, where Python would raise `NameError`). -/
def ranges_and_ticks (xs ys : CoordsScale) (w h : ℚ) (aspect : Option ℚ) :
    Option (Cand × Cand) :=
  match aspect with
  | none =>
    match coordsBest1 xs.pen (xs.trySingle none), coordsBest1 ys.pen (ys.trySingle none) with
    | some bx, some by1 => some (bx, by1)
    | _, _ => none
  | some r => (aspectLoopY xs ys r w h (aspectLoopX xs ys r w h none)).map (fun z => z.2)

/-- The claim's x-first order, for `coords`: best x independently, then
best y bounded by the winning x length. -/
def coordsOrderXFirst (xs ys : CoordsScale) (r w h : ℚ) : Option (Cand × Cand) :=
  match coordsBest1 xs.pen (xs.trySingle none) with
  | none => none
  | some bx =>
    let l := (bx.1.2 - bx.1.1) * r * w / h
    match coordsBest1 ys.pen (ys.trySingle (some l)) with
    | none => none
    | some by1 => some (bx, by1)

/-- The claim's y-first order, for `coords`. -/
def coordsOrderYFirst (xs ys : CoordsScale) (r w h : ℚ) : Option (Cand × Cand) :=
  match coordsBest1 ys.pen (ys.trySingle none) with
  | none => none
  | some by1 =>
    let l := (by1.1.2 - by1.1.1) / r / w * h
    match coordsBest1 xs.pen (xs.trySingle (some l)) with
    | none => none
    | some bx => some (bx, by1)

def xsDemo : CoordsScale where
  trySingle := fun l =>
    match l with
    | none => [((0, 1), [0, 1]), ((0, 2), [0, 2])]
    | some l => if l = 3 then [((0, 3), [0, 3])] else []
  pen := fun r _ => if r = (0, 1) then 0 else if r = (0, 2) then 2 else 5

def ysDemo : CoordsScale where
  trySingle := fun l =>
    match l with
    | none => [((0, 3), [0, 3])]
    | some l =>
      if l = 1 then [((0, 1), [0, 1])]
      else if l = 2 then [((0, 2), [0, 2])] else []
  pen := fun r _ => if r = (0, 1) then 3 else if r = (0, 2) then 1/2 else 1

/-- C6 counterexample: `coords.ranges_and_ticks` does not implement the
claimed two-orderings selection.  It minimizes the plain sum `px + py` over
all candidate pairs of both loops, so it can return a pair — here
x = y = ((0,2), [0,2]) with cost 2 + 1/2 — that neither planning order
produces: the x-first order commits to the best lone x candidate (0,1) and
ends at ((0,1), (0,1)), the y-first order at ((0,3), (0,3)). -/
theorem fix_both_orders_counterexample :
    ranges_and_ticks xsDemo ysDemo 1 1 (some 1)
      = some ((((0 : ℚ), 2), [0, 2]), (((0 : ℚ), 2), [0, 2])) ∧
    coordsOrderXFirst xsDemo ysDemo 1 1 1
      = some ((((0 : ℚ), 1), [0, 1]), (((0 : ℚ), 1), [0, 1])) ∧
    coordsOrderYFirst xsDemo ysDemo 1 1 1
      = some ((((0 : ℚ), 3), [0, 3]), (((0 : ℚ), 3), [0, 3])) ∧
    ranges_and_ticks xsDemo ysDemo 1 1 (some 1) ≠ coordsOrderXFirst xsDemo ysDemo 1 1 1 ∧
    ranges_and_ticks xsDemo ysDemo 1 1 (some 1) ≠ coordsOrderYFirst xsDemo ysDemo 1 1 1 := by
  have h1 : ranges_and_ticks xsDemo ysDemo 1 1 (some 1)
      = some ((((0 : ℚ), 2), [0, 2]), (((0 : ℚ), 2), [0, 2])) := by
    norm_num [ranges_and_ticks, aspectLoopX, aspectLoopY, xsDemo, ysDemo,
      coordsUpdate, List.foldl]
  have h2 : coordsOrderXFirst xsDemo ysDemo 1 1 1
      = some ((((0 : ℚ), 1), [0, 1]), (((0 : ℚ), 1), [0, 1])) := by
    norm_num [coordsOrderXFirst, coordsBest1, xsDemo, ysDemo, coordsUpdate, List.foldl]
  have h3 : coordsOrderYFirst xsDemo ysDemo 1 1 1
      = some ((((0 : ℚ), 3), [0, 3]), (((0 : ℚ), 3), [0, 3])) := by
    norm_num [coordsOrderYFirst, coordsBest1, xsDemo, ysDemo, coordsUpdate, List.foldl]
  refine ⟨h1, h2, h3, ?_, ?_⟩
  · rw [h1, h2]
    simp
  · rw [h1, h3]
    simp
